import Mathlib

/-!
Verification of the fast_paths repository core (src/src/dijkstra.rs, src/src/lib.rs).

The reference Dijkstra (src/src/dijkstra.rs) is embedded faithfully below.  Supporting
modules that the crate declares but whose files are not part of src/ (constants.rs,
valid_flags.rs, heap_item.rs, preparation_graph.rs, shortest_path.rs, input_graph.rs,
fast_graph32.rs) are modelled from the specification, as indicated on each definition.

Machine integers: the crate's `Nat` and `Nat` are Rust `usize` values.  They are
modelled as `Nat`, with the one arithmetic operation of the source (`curr.weight +
edge_weight` at dijkstra.rs:92) modelled as 64-bit wrapping addition `wAdd`, the
release-mode semantics of `+` on a 64-bit target.
-/

/- Nodes and weights are non-negative integers (spec section 3); both are Rust
`usize` values and are modelled as `Nat` throughout. -/

/-- Number of values of a 64-bit machine word (`usize` on the 64-bit targets the
crate is built for). -/
def U64 : Nat := 2 ^ 64

/-- Modelled from the spec: constants.rs is absent from src/.  `INVALID_NODE` is the
reserved sentinel `Nat` marking absence (spec section 3); the maximal `usize`. -/
def INVALID_NODE : Nat := U64 - 1

/-- Modelled from the spec: constants.rs is absent from src/.  `WEIGHT_MAX` is the
reserved sentinel `Nat` marking unreachable/infinity (spec section 3); the maximal
`usize`. -/
def WEIGHT_MAX : Nat := U64 - 1

/-- The weight addition performed by the source: `curr.weight + edge_weight`
(dijkstra.rs:92) is `usize` addition, which on a 64-bit target wraps modulo `2 ^ 64`
in release builds. -/
def wAdd (a b : Nat) : Nat := (a + b) % U64

/-- One out-edge record of the preparation graph as read by the Dijkstra code:
`graph.out_edges[node][i].adj_node` and `.weight` (dijkstra.rs:90-91).  Modelled from
the spec (section 3, PreparationEdge); the shortcut bookkeeping fields
(center_node, replaced_in_edges, replaced_out_edges) are not read by the code under
src/ and are omitted. -/
structure PrepEdge where
  adj_node : Nat
  weight : Nat
deriving Repr, DecidableEq

/-- Modelled from the spec: preparation_graph.rs is absent from src/.  The graph holds,
for each node, an ordered list of out-edges (spec section 3); the Dijkstra code reads
only `out_edges` and `get_num_nodes()`. -/
structure PreparationGraph where
  out_edges : List (List PrepEdge)
deriving Repr, DecidableEq

/-- Node count of the preparation graph (`get_num_nodes`). -/
def PreparationGraph.get_num_nodes (g : PreparationGraph) : Nat := g.out_edges.length

/-- Out-edge list of one node; out of range reads give the empty list (in Rust they
panic; the panic-aware wrapper `Dijkstra.calc_path_checked` accounts for this). -/
def outAt (g : PreparationGraph) (n : Nat) : List PrepEdge := g.out_edges.getD n []

/-- Total weight of the out-edges stored at one node. -/
def outWSum (g : PreparationGraph) (n : Nat) : Nat := ((outAt g n).map PrepEdge.weight).sum

/-- Total weight of all edges of the graph. -/
def weightSum (g : PreparationGraph) : Nat :=
  Finset.sum (Finset.range g.get_num_nodes) (outWSum g)

/-- Total number of edges of the graph. -/
def edgeCount (g : PreparationGraph) : Nat := (g.out_edges.map List.length).sum

/-- A preparation graph is well-formed when every stored adjacent node is in range. -/
def PreparationGraph.wf (g : PreparationGraph) : Bool :=
  g.out_edges.all fun l => l.all fun e => decide (e.adj_node < g.out_edges.length)

/-- Modelled from the spec: shortest_path.rs is absent from src/.  A shortest-path
value holds source, target, total weight and the node sequence (spec section 3). -/
structure ShortestPath where
  source : Nat
  target : Nat
  weight : Nat
  nodes : List Nat
deriving Repr, DecidableEq

/-- Modelled from the spec: the singular path returned for a query `(k, k)` has
weight 0 and node sequence `[k]` (spec section 8, scenario 4; dijkstra.rs:107). -/
def ShortestPath.singular (n : Nat) : ShortestPath :=
  { source := n, target := n, weight := 0, nodes := [n] }

/-- Modelled from the spec: equality of two paths compares `(source, target, weight)`
only (spec section 3); the source's own test comments this at dijkstra.rs:259
("ShortestPath PartialEq does not consider nodes!"). -/
def ShortestPath.beq (a b : ShortestPath) : Bool :=
  a.source == b.source && a.target == b.target && a.weight == b.weight

/-- Modelled from the spec: heap_item.rs is absent from src/.  A heap item pairs a
weight with a node id (dijkstra.rs:95 `HeapItem::new(weight, adj)`). -/
structure HeapItem where
  weight : Nat
  node_id : Nat
deriving Repr, DecidableEq

/-- Modelled from the spec: the binary heap of heap items pops a minimum-weight item
(heap_item.rs, which reverses the order so that Rust's max-heap yields the minimum, is
absent from src/; spec section 4.3 and 9 describe all searches as Dijkstra searches
popping minima).  Ties resolve to the earliest pushed item; Rust leaves tie order
unspecified. -/
def popMin : List HeapItem → Option (HeapItem × List HeapItem)
  | [] => none
  | x :: xs =>
    match popMin xs with
    | none => some (x, [])
    | some (m, rest) => if x.weight ≤ m.weight then some (x, xs) else some (m, x :: rest)

/-- Per-node scratch record of the Dijkstra search (dijkstra.rs:143-147). -/
structure DData where
  settled : Bool
  weight : Nat
  parent : Nat
deriving Repr, DecidableEq

/-- The Dijkstra state (dijkstra.rs:29-34).  `valid_flags` (valid_flags.rs is absent
from src/) is modelled from the spec (section 4.1): its observable behaviour is a
boolean per slot, with `invalidate_all` resetting every slot. -/
structure Dijkstra where
  num_nodes : Nat
  data : List DData
  valid : List Bool
  heap : List HeapItem
deriving Repr, DecidableEq

/-- Constructor `Dijkstra::new` (dijkstra.rs:41-49); `Data::new` initializes each record with
settled = false, weight = WEIGHT_MAX, parent = INVALID_NODE (dijkstra.rs:150-157). -/
def Dijkstra.new (num_nodes : Nat) : Dijkstra :=
  { num_nodes := num_nodes
    data := List.replicate num_nodes { settled := false, weight := WEIGHT_MAX, parent := INVALID_NODE }
    valid := List.replicate num_nodes false
    heap := [] }

/-- Scratch record of a node; out of range reads give an arbitrary record (in Rust
they panic; `Dijkstra.calc_path_checked` accounts for this). -/
def dataAt (d : Dijkstra) (n : Nat) : DData :=
  d.data.getD n { settled := false, weight := 0, parent := 0 }

/-- Valid flag of a node. -/
def validAt (d : Dijkstra) (n : Nat) : Bool := d.valid.getD n false

/-- Recorded weight of a node (the raw `data[n].weight` field). -/
def recorded (d : Dijkstra) (n : Nat) : Nat := (dataAt d n).weight

/-- Models `heap.push` (dijkstra.rs:67 and dijkstra.rs:95): append one item to the heap. -/
def pushItem (d : Dijkstra) (it : HeapItem) : Dijkstra := { d with heap := d.heap ++ [it] }

/-- Method `update_node` (dijkstra.rs:123-128): set the valid flag and overwrite the
scratch record with settled = false, the new weight and the new parent. -/
def Dijkstra.update_node (d : Dijkstra) (node : Nat) (weight : Nat) (parent : Nat) :
    Dijkstra :=
  { d with
    valid := d.valid.set node true
    data := d.data.set node { settled := false, weight := weight, parent := parent } }

/-- Method `is_settled` (dijkstra.rs:130-132). -/
def Dijkstra.is_settled (d : Dijkstra) (node : Nat) : Bool :=
  validAt d node && (dataAt d node).settled

/-- Method `get_weight` (dijkstra.rs:134-140). -/
def Dijkstra.get_weight (d : Dijkstra) (node : Nat) : Nat :=
  if validAt d node then (dataAt d node).weight else WEIGHT_MAX

/-- The statement `self.data[curr.node_id].settled = true` (dijkstra.rs:98). -/
def Dijkstra.set_settled (d : Dijkstra) (node : Nat) : Dijkstra :=
  { d with data := d.data.set node { dataAt d node with settled := true } }

/-- Method `init` (dijkstra.rs:63-68): clear the heap, invalidate all flags, record the
start node at weight 0 with no parent, and push it. -/
def Dijkstra.init (d : Dijkstra) (start : Nat) : Dijkstra :=
  let d0 : Dijkstra := { d with heap := [], valid := List.replicate d.num_nodes false }
  let d1 := Dijkstra.update_node d0 start 0 INVALID_NODE
  pushItem d1 { weight := 0, node_id := start }

/-- One step of the relaxation loop of `do_calc_path` (dijkstra.rs:90-96): compute
`curr.weight + edge_weight` (64-bit wrapping) and, when it improves on the recorded
weight of the adjacent node, update that node and push a heap item. -/
def relaxBody (curr : HeapItem) (d : Dijkstra) (e : PrepEdge) : Dijkstra :=
  let weight := wAdd curr.weight e.weight
  if weight < Dijkstra.get_weight d e.adj_node then
    pushItem (Dijkstra.update_node d e.adj_node weight curr.node_id)
      { weight := weight, node_id := e.adj_node }
  else d

/-- The relaxation loop of `do_calc_path` (dijkstra.rs:89-97): apply `relaxBody` to
each out-edge of the popped node in order. -/
def Dijkstra.relax_edges (g : PreparationGraph) (curr : HeapItem) (d : Dijkstra) : Dijkstra :=
  (outAt g curr.node_id).foldl (relaxBody curr) d

/-- The `while !self.heap.is_empty()` loop of `do_calc_path` (dijkstra.rs:82-102),
as a fuel-indexed iteration: pop a minimum item, skip it when its node is already
settled, otherwise relax its out-edges, mark it settled and stop when it is the
target.  One unit of fuel is one loop iteration. -/
def Dijkstra.runLoop (g : PreparationGraph) (endNode : Nat) : Nat → Dijkstra → Dijkstra
  | 0, d => d
  | Nat.succ fuel, d =>
    match popMin d.heap with
    | none => d
    | some (curr, rest) =>
      let d1 : Dijkstra := { d with heap := rest }
      if Dijkstra.is_settled d1 curr.node_id = true then Dijkstra.runLoop g endNode fuel d1
      else
        let d2 := Dijkstra.relax_edges g curr d1
        let d3 := Dijkstra.set_settled d2 curr.node_id
        if curr.node_id = endNode then d3 else Dijkstra.runLoop g endNode fuel d3

/-- Fuel sufficient for the search loop: each of the at most `num_nodes` settling
iterations pushes at most `edgeCount g` items, every iteration consumes one item of
the heap, and the heap starts with one item. -/
def dijkstraFuel (g : PreparationGraph) (d : Dijkstra) : Nat :=
  (d.num_nodes + 1) * (edgeCount g + 2) + 1

/-- Number of settled nodes of the state. -/
def settledCount (d : Dijkstra) : Nat :=
  (List.range d.num_nodes).countP fun n => Dijkstra.is_settled d n

/-- Termination measure of the search loop: every iteration strictly decreases it —
a stale pop shrinks the heap, and a settling iteration consumes one heap item, pushes
at most `edgeCount g` new ones and settles one more node for good. -/
def loopMeasure (g : PreparationGraph) (d : Dijkstra) : Nat :=
  d.heap.length + (d.num_nodes - settledCount d) * (edgeCount g + 1)

/-- Method `do_calc_path` (dijkstra.rs:70-103) without its panics (for those see
`Dijkstra.calc_path_checked`): return unchanged when start equals end or the end is
already settled, otherwise run the search loop. -/
def Dijkstra.do_calc_path (g : PreparationGraph) (d : Dijkstra) (start endNode : Nat) :
    Dijkstra :=
  if start = endNode then d
  else if Dijkstra.is_settled d endNode = true then d
  else Dijkstra.runLoop g endNode (dijkstraFuel g d) d

/-- The `while self.data[node].parent != INVALID_NODE` walk of `build_path`
(dijkstra.rs:114-117), fuel-indexed; it collects the nodes from `end` backwards,
excluding the node whose parent is the invalid sentinel. -/
def parentWalk (d : Dijkstra) : Nat → Nat → List Nat
  | 0, _ => []
  | Nat.succ fuel, node =>
    if (dataAt d node).parent = INVALID_NODE then []
    else node :: parentWalk d fuel (dataAt d node).parent

/-- Method `build_path` (dijkstra.rs:105-121): the singular path when start equals end, none
when the end is not valid-and-settled, otherwise the reversed parent walk with the
start appended, together with the recorded weight of the end node. -/
def Dijkstra.build_path (d : Dijkstra) (start endNode : Nat) : Option ShortestPath :=
  if start = endNode then some (ShortestPath.singular start)
  else if !(Dijkstra.is_settled d endNode) then none
  else some
    { source := start
      target := endNode
      weight := (dataAt d endNode).weight
      nodes := ((parentWalk d (d.num_nodes + 1) endNode) ++ [start]).reverse }

/-- Method `Dijkstra::calc_path` (dijkstra.rs:52-61): init, search, build. -/
def Dijkstra.calc_path (d : Dijkstra) (g : PreparationGraph) (start endNode : Nat) :
    Option ShortestPath :=
  let d1 := Dijkstra.init d start
  let d2 := Dijkstra.do_calc_path g d1 start endNode
  Dijkstra.build_path d2 start endNode

/-- Panic-aware wrapper of `Dijkstra::calc_path`.  Rust panics are modelled as
`Except.error`: the out-of-range index panic of `init` (dijkstra.rs:66, `data[start]`),
the `assert_eq!` of `do_calc_path` (dijkstra.rs:71-75) with its message, the
out-of-range index panic of `is_settled(end)` (dijkstra.rs:79), and the in-loop
out-of-range index panics on stored adjacent nodes, checked conservatively up front
through `PreparationGraph.wf` (a malformed edge only panics in Rust when the loop
reaches it). -/
def Dijkstra.calc_path_checked (d : Dijkstra) (g : PreparationGraph)
    (start endNode : Nat) : Except String (Option ShortestPath) :=
  if d.num_nodes ≤ start then Except.error "index out of bounds"
  else if g.get_num_nodes ≠ d.num_nodes then Except.error "given graph has invalid node count"
  else if start = endNode then Except.ok (Dijkstra.calc_path d g start endNode)
  else if d.num_nodes ≤ endNode then Except.error "index out of bounds"
  else if g.wf = false then Except.error "index out of bounds"
  else Except.ok (Dijkstra.calc_path d g start endNode)

/-- Modelled from the spec: input_graph.rs is absent from src/.  One input edge with
its `from` node (called `src` here, `from` being reserved in Lean), `to` node and
weight (spec section 6). -/
structure InputEdge where
  src : Nat
  dst : Nat
  weight : Nat
deriving Repr, DecidableEq

/-- Modelled from the spec: input_graph.rs is absent from src/.  An input graph is
its edge list together with its node count (node-count derivation is external, spec
section 1). -/
structure InputGraph where
  num_nodes : Nat
  edges : List InputEdge
deriving Repr, DecidableEq

/-- An input graph is well-formed when every endpoint is in range. -/
def InputGraph.wf (ig : InputGraph) : Bool :=
  ig.edges.all fun e => decide (e.src < ig.num_nodes) && decide (e.dst < ig.num_nodes)

/-- Modelled from the spec (section 4.2): inserting an edge into one adjacency list
keeps at most one edge per ordered pair; a parallel insert updates the existing edge
to the minimum weight. -/
def addEdgeToList (l : List PrepEdge) (dst : Nat) (w : Nat) : List PrepEdge :=
  if l.any fun e => e.adj_node == dst then
    l.map fun e => if e.adj_node == dst then { e with weight := min e.weight w } else e
  else l ++ [{ adj_node := dst, weight := w }]

/-- Modelled from the spec (sections 3 and 4.2): `add_edge` inserts into
`out_edges[from]`, deduplicating parallel edges by minimum weight; self-loops are
excluded (spec section 3: "No self-loops"). -/
def PreparationGraph.add_edge (g : PreparationGraph) (src dst : Nat) (w : Nat) :
    PreparationGraph :=
  if src = dst then g
  else { out_edges := g.out_edges.set src (addEdgeToList (outAt g src) dst w) }

/-- Modelled from the spec: `PreparationGraph::from_input_graph` (used by the test
harness at lib.rs:171) builds the preparation graph of the input graph by inserting
every input edge. -/
def PreparationGraph.from_input_graph (ig : InputGraph) : PreparationGraph :=
  ig.edges.foldl (fun g e => PreparationGraph.add_edge g e.src e.dst e.weight)
    { out_edges := List.replicate ig.num_nodes [] }

/-- Paths over an abstract edge relation: `PathW E a b nodes w` states that `nodes`
leads from `a` to `b`, every consecutive pair is related by `E` with some edge weight,
and `w` is the exact sum of those edge weights. -/
inductive PathW (E : Nat → Nat → Nat → Prop) : Nat → Nat → List Nat → Nat → Prop
  | single (n : Nat) : PathW E n n [n] 0
  | cons (a b c : Nat) (nodes : List Nat) (w wE : Nat) :
      E a b wE → PathW E b c nodes w → PathW E a c (a :: nodes) (wE + w)

/-- The edge relation of the original input graph. -/
def inputEdgeRel (ig : InputGraph) (a b : Nat) (w : Nat) : Prop :=
  ∃ e ∈ ig.edges, e.src = a ∧ e.dst = b ∧ e.weight = w

/-- The edge relation of a preparation graph. -/
def prepEdgeRel (g : PreparationGraph) (a b : Nat) (w : Nat) : Prop :=
  ∃ e ∈ outAt g a, e.adj_node = b ∧ e.weight = w

/-- Modelled from the spec: fast_graph.rs is absent from src/.  One edge of the
prepared graph: `(base_node, adj_node, weight, replaced_in_edge, replaced_out_edge)`
(spec section 3). -/
structure FastGraphEdge where
  base_node : Nat
  adj_node : Nat
  weight : Nat
  replaced_in_edge : Nat
  replaced_out_edge : Nat
deriving Repr, DecidableEq

/-- Modelled from the spec: fast_graph.rs is absent from src/.  The prepared graph is
serialized as `num_nodes`, the out- and in-edge arrays, the two CSR offset arrays and
the `ranks` array (spec section 6). -/
structure FastGraph where
  num_nodes : Nat
  ranks : List Nat
  edges_fwd : List FastGraphEdge
  first_edge_ids_fwd : List Nat
  edges_bwd : List FastGraphEdge
  first_edge_ids_bwd : List Nat
deriving Repr, DecidableEq

/-- Number of values of a 32-bit machine word. -/
def U32 : Nat := 2 ^ 32

/-- Whether every integer field of the edge fits in 32 bits. -/
def FastGraphEdge.fitsU32 (e : FastGraphEdge) : Bool :=
  decide (e.base_node < U32) && decide (e.adj_node < U32) && decide (e.weight < U32) &&
    decide (e.replaced_in_edge < U32) && decide (e.replaced_out_edge < U32)

/-- Whether the node count, the edge counts and every stored integer of the graph fit
in 32 bits (lib.rs:118: "It will panic if the graph has more than 2^32 nodes or edges
or values for weight"). -/
def FastGraph.fitsU32 (g : FastGraph) : Bool :=
  decide (g.num_nodes < U32) && decide (g.edges_fwd.length < U32) &&
    decide (g.edges_bwd.length < U32) &&
    g.ranks.all (fun x => decide (x < U32)) &&
    g.edges_fwd.all FastGraphEdge.fitsU32 && g.edges_bwd.all FastGraphEdge.fitsU32 &&
    g.first_edge_ids_fwd.all (fun x => decide (x < U32)) &&
    g.first_edge_ids_bwd.all (fun x => decide (x < U32))

/-- Modelled from the spec: fast_graph32.rs is absent from src/.  The width-normalized
form stores every integer field as 32 bits; a field holds the value modulo `2 ^ 32`
(the truncation a 32-bit store performs). -/
structure FastGraph32 where
  num_nodes : Nat
  ranks : List Nat
  edges_fwd : List FastGraphEdge
  first_edge_ids_fwd : List Nat
  edges_bwd : List FastGraphEdge
  first_edge_ids_bwd : List Nat
deriving Repr, DecidableEq

/-- Truncation of a value to 32 bits. -/
def truncU32 (n : Nat) : Nat := n % U32

/-- Edge with every field truncated to 32 bits. -/
def FastGraphEdge.to32 (e : FastGraphEdge) : FastGraphEdge :=
  { base_node := truncU32 e.base_node
    adj_node := truncU32 e.adj_node
    weight := truncU32 e.weight
    replaced_in_edge := truncU32 e.replaced_in_edge
    replaced_out_edge := truncU32 e.replaced_out_edge }

/-- Modelled from the spec: `FastGraph32::new` converts a prepared graph to the
32-bit-width representation, failing loudly — a panic, modelled as `none` — when a
count or stored value does not fit in 32 bits (spec section 6; lib.rs:115-121). -/
def FastGraph32.new (g : FastGraph) : Option FastGraph32 :=
  if g.fitsU32 then
    some
      { num_nodes := truncU32 g.num_nodes
        ranks := g.ranks.map truncU32
        edges_fwd := g.edges_fwd.map FastGraphEdge.to32
        first_edge_ids_fwd := g.first_edge_ids_fwd.map truncU32
        edges_bwd := g.edges_bwd.map FastGraphEdge.to32
        first_edge_ids_bwd := g.first_edge_ids_bwd.map truncU32 }
  else none

/-- Modelled from the spec: `FastGraph32::convert_to_usize` widens every stored 32-bit
field back to the platform width (lib.rs:123-130); widening is exact. -/
def FastGraph32.convert_to_usize (g : FastGraph32) : FastGraph :=
  { num_nodes := g.num_nodes
    ranks := g.ranks
    edges_fwd := g.edges_fwd
    first_edge_ids_fwd := g.first_edge_ids_fwd
    edges_bwd := g.edges_bwd
    first_edge_ids_bwd := g.first_edge_ids_bwd }

/-! Basic facts about list reads and writes used by the state operations. -/

/-- Parent chains of the search state.  `Chain g d ok s n c` states that `c` lists the
nodes from `n` back to the start `s` following `parent` links, that each link is backed
by a graph edge whose weight connects the recorded weights of child and parent exactly
(ordinary, non-wrapping addition), and that each parent satisfies `ok`. -/
inductive Chain (g : PreparationGraph) (d : Dijkstra) (ok : Nat → Prop) (s : Nat) :
    Nat → List Nat → Prop
  | base : Chain g d ok s s [s]
  | step (n p : Nat) (e : PrepEdge) (c : List Nat) :
      n ≠ s → (dataAt d n).parent = p → e ∈ outAt g p → e.adj_node = n →
      recorded d n = recorded d p + e.weight → ok p →
      Chain g d ok s p c → Chain g d ok s n (n :: c)

/-- The invariant of reachable states of the Dijkstra search from start `s` on the
well-formed graph `g`.  The start node stays recorded at weight 0 with no parent;
every valid node carries a duplicate-free parent chain backed by graph edges whose
parents are settled; heap items refer to valid nodes and bound their recorded weight
from above; recorded weights of settled nodes bound every heap weight from below; and
every valid unsettled node has a heap item carrying exactly its recorded weight. -/
structure DijInv (g : PreparationGraph) (s : Nat) (d : Dijkstra) : Prop where
  hdata : d.data.length = d.num_nodes
  hvalid : d.valid.length = d.num_nodes
  hnodes : g.get_num_nodes = d.num_nodes
  hNmax : d.num_nodes ≤ INVALID_NODE
  hsum : weightSum g < WEIGHT_MAX
  hwf : g.wf = true
  hstart_valid : validAt d s = true
  hstart_rec : recorded d s = 0
  hstart_par : (dataAt d s).parent = INVALID_NODE
  hchain : ∀ n, validAt d n = true →
    ∃ c, Chain g d (fun p => Dijkstra.is_settled d p = true) s n c ∧ c.Nodup ∧
      ∀ x ∈ c, validAt d x = true
  hheap1 : ∀ it ∈ d.heap, validAt d it.node_id = true ∧ recorded d it.node_id ≤ it.weight
  hheap2 : ∀ n, Dijkstra.is_settled d n = true → ∀ it ∈ d.heap, recorded d n ≤ it.weight
  hheap3 : ∀ n, validAt d n = true → Dijkstra.is_settled d n = false →
    ∃ it ∈ d.heap, it.node_id = n ∧ it.weight = recorded d n

/-- The invariant through the relaxation loop of one non-stale iteration: `curr` is
the popped item, `dbase` the state just after the pop, `d` the current state inside
the loop.  Settledness is untouched by the loop, settled records are frozen, the
popped node's record is frozen, parent chains may additionally use the popped node as
parent, and every heap weight is at least the popped weight. -/
structure RInv (g : PreparationGraph) (s : Nat) (curr : HeapItem) (dbase d : Dijkstra) :
    Prop where
  hdata : d.data.length = d.num_nodes
  hvalid : d.valid.length = d.num_nodes
  hnum : d.num_nodes = dbase.num_nodes
  hsettled_eq : ∀ n, Dijkstra.is_settled d n = Dijkstra.is_settled dbase n
  hfrozen : ∀ n, Dijkstra.is_settled dbase n = true → dataAt d n = dataAt dbase n
  hvalid_mono : ∀ n, validAt dbase n = true → validAt d n = true
  hcurr_data : dataAt d curr.node_id = dataAt dbase curr.node_id
  hstart_valid : validAt d s = true
  hstart_rec : recorded d s = 0
  hstart_par : (dataAt d s).parent = INVALID_NODE
  hchain : ∀ n, validAt d n = true →
    ∃ c, Chain g d (fun p => Dijkstra.is_settled d p = true ∨ p = curr.node_id) s n c ∧
      c.Nodup ∧ ∀ x ∈ c, validAt d x = true
  hheap1 : ∀ it ∈ d.heap, validAt d it.node_id = true ∧ recorded d it.node_id ≤ it.weight
  hheap2lo : ∀ it ∈ d.heap, curr.weight ≤ it.weight
  hheap3 : ∀ n, validAt d n = true → Dijkstra.is_settled d n = false → n ≠ curr.node_id →
    ∃ it ∈ d.heap, it.node_id = n ∧ it.weight = recorded d n

/-- A two-node input graph with one edge 0 -> 1 of weight 5. -/
def exampleInput : InputGraph :=
  { num_nodes := 2, edges := [{ src := 0, dst := 1, weight := 5 }] }

/-- The three-node directed chain 0 -> 1 -> 2 of the spec's no-path scenario. -/
def exampleChain : InputGraph :=
  { num_nodes := 3
    edges := [{ src := 0, dst := 1, weight := 1 }, { src := 1, dst := 2, weight := 1 }] }

/-- The preparation graph of `exampleInput`. -/
def exampleGraph : PreparationGraph := PreparationGraph.from_input_graph exampleInput

/-- The preparation graph of `exampleChain`. -/
def exampleChainGraph : PreparationGraph := PreparationGraph.from_input_graph exampleChain

/-- One small in-bounds fast-graph edge. -/
def exampleFastEdge : FastGraphEdge :=
  { base_node := 0, adj_node := 1, weight := 5, replaced_in_edge := 0, replaced_out_edge := 0 }

/-- One fast-graph edge whose weight does not fit in 32 bits. -/
def exampleBigFastEdge : FastGraphEdge :=
  { base_node := 0, adj_node := 0, weight := 2 ^ 40, replaced_in_edge := 0,
    replaced_out_edge := 0 }

/-- A small prepared graph wholly within 32-bit bounds. -/
def exampleFastGraph : FastGraph :=
  { num_nodes := 2
    ranks := [1, 0]
    edges_fwd := [exampleFastEdge]
    first_edge_ids_fwd := [0, 1, 1]
    edges_bwd := []
    first_edge_ids_bwd := [0, 0, 0] }

/-- A prepared graph with a weight that does not fit in 32 bits. -/
def exampleBigFastGraph : FastGraph :=
  { num_nodes := 1
    ranks := [0]
    edges_fwd := [exampleBigFastEdge]
    first_edge_ids_fwd := [0, 1]
    edges_bwd := []
    first_edge_ids_bwd := [0, 0] }

/-! Helper facts for the 32-bit conversion. -/

theorem getD_set_self {α : Type} (l : List α) (i : Nat) (a dflt : α) (h : i < l.length) :
    (l.set i a).getD i dflt = a := by
  simp [List.getD_eq_getElem?_getD, List.getElem?_set_self, h]

theorem getD_set_ne {α : Type} (l : List α) (i j : Nat) (a dflt : α) (h : i ≠ j) :
    (l.set i a).getD j dflt = l.getD j dflt := by
  simp [List.getD_eq_getElem?_getD, List.getElem?_set_ne h]

theorem getD_replicate_lt {α : Type} (n i : Nat) (a dflt : α) (h : i < n) :
    (List.replicate n a).getD i dflt = a := by
  simp [List.getD_eq_getElem?_getD, List.getElem?_replicate, h]

theorem getD_default_of_le {α : Type} (l : List α) (i : Nat) (dflt : α) (h : l.length ≤ i) :
    l.getD i dflt = dflt := by
  simp [List.getD_eq_getElem?_getD, List.getElem?_eq_none h]

/-! State-operation lemmas. -/

theorem num_nodes_update_node (d : Dijkstra) (node : Nat) (w : Nat) (p : Nat) :
    (Dijkstra.update_node d node w p).num_nodes = d.num_nodes := rfl

theorem heap_update_node (d : Dijkstra) (node : Nat) (w : Nat) (p : Nat) :
    (Dijkstra.update_node d node w p).heap = d.heap := rfl

theorem data_length_update_node (d : Dijkstra) (node : Nat) (w : Nat) (p : Nat) :
    (Dijkstra.update_node d node w p).data.length = d.data.length := by
  simp [Dijkstra.update_node]

theorem valid_length_update_node (d : Dijkstra) (node : Nat) (w : Nat) (p : Nat) :
    (Dijkstra.update_node d node w p).valid.length = d.valid.length := by
  simp [Dijkstra.update_node]

theorem dataAt_update_node_self (d : Dijkstra) (node : Nat) (w : Nat) (p : Nat)
    (h : node < d.data.length) :
    dataAt (Dijkstra.update_node d node w p) node =
      { settled := false, weight := w, parent := p } :=
  getD_set_self d.data node _ _ h

theorem dataAt_update_node_ne (d : Dijkstra) (node : Nat) (w : Nat) (p : Nat)
    (m : Nat) (h : node ≠ m) :
    dataAt (Dijkstra.update_node d node w p) m = dataAt d m :=
  getD_set_ne d.data node m _ _ h

theorem validAt_update_node_self (d : Dijkstra) (node : Nat) (w : Nat) (p : Nat)
    (h : node < d.valid.length) :
    validAt (Dijkstra.update_node d node w p) node = true :=
  getD_set_self d.valid node _ _ h

theorem validAt_update_node_ne (d : Dijkstra) (node : Nat) (w : Nat) (p : Nat)
    (m : Nat) (h : node ≠ m) :
    validAt (Dijkstra.update_node d node w p) m = validAt d m :=
  getD_set_ne d.valid node m _ _ h

theorem num_nodes_set_settled (d : Dijkstra) (node : Nat) :
    (Dijkstra.set_settled d node).num_nodes = d.num_nodes := rfl

theorem heap_set_settled (d : Dijkstra) (node : Nat) :
    (Dijkstra.set_settled d node).heap = d.heap := rfl

theorem valid_set_settled (d : Dijkstra) (node : Nat) :
    (Dijkstra.set_settled d node).valid = d.valid := rfl

theorem data_length_set_settled (d : Dijkstra) (node : Nat) :
    (Dijkstra.set_settled d node).data.length = d.data.length := by
  simp [Dijkstra.set_settled]

theorem validAt_set_settled (d : Dijkstra) (node m : Nat) :
    validAt (Dijkstra.set_settled d node) m = validAt d m := rfl

theorem dataAt_set_settled_self (d : Dijkstra) (node : Nat) (h : node < d.data.length) :
    dataAt (Dijkstra.set_settled d node) node = { dataAt d node with settled := true } :=
  getD_set_self d.data node _ _ h

theorem dataAt_set_settled_ne (d : Dijkstra) (node m : Nat) (h : node ≠ m) :
    dataAt (Dijkstra.set_settled d node) m = dataAt d m :=
  getD_set_ne d.data node m _ _ h

theorem validAt_lt (d : Dijkstra) (n : Nat) (hlen : d.valid.length = d.num_nodes)
    (h : validAt d n = true) : n < d.num_nodes := by
  rcases Nat.lt_or_ge n d.num_nodes with hlt | hge
  · exact hlt
  · exfalso
    have hle : d.valid.length ≤ n := by omega
    have h2 : validAt d n = false := getD_default_of_le d.valid n false hle
    rw [h2] at h
    exact Bool.false_ne_true h

theorem is_settled_heap_irrel (d : Dijkstra) (l : List HeapItem) (n : Nat) :
    Dijkstra.is_settled { d with heap := l } n = Dijkstra.is_settled d n := rfl

/-! Facts about `popMin`. -/

theorem popMin_none_iff (l : List HeapItem) : popMin l = none ↔ l = [] := by
  cases l with
  | nil => simp [popMin]
  | cons x xs =>
    simp only [popMin]
    cases h : popMin xs with
    | none => simp
    | some mr =>
      obtain ⟨m, rest⟩ := mr
      by_cases hle : x.weight ≤ m.weight <;> simp [hle]

theorem popMin_perm (l : List HeapItem) (m : HeapItem) (rest : List HeapItem)
    (h : popMin l = some (m, rest)) : l.Perm (m :: rest) := by
  induction l generalizing m rest with
  | nil => simp [popMin] at h
  | cons x xs ih =>
    cases hx : popMin xs with
    | none =>
      simp only [popMin, hx] at h
      have hxs : xs = [] := (popMin_none_iff xs).mp hx
      cases h
      subst hxs
      exact List.Perm.refl _
    | some mr =>
      obtain ⟨m1, rest1⟩ := mr
      simp only [popMin, hx] at h
      by_cases hle : x.weight ≤ m1.weight
      · rw [if_pos hle] at h
        cases h
        exact List.Perm.refl _
      · rw [if_neg hle] at h
        cases h
        have h1 : xs.Perm (m :: rest1) := ih m rest1 hx
        exact (h1.cons x).trans (List.Perm.swap m x rest1)

theorem popMin_min (l : List HeapItem) (m : HeapItem) (rest : List HeapItem)
    (h : popMin l = some (m, rest)) : ∀ it ∈ l, m.weight ≤ it.weight := by
  induction l generalizing m rest with
  | nil => simp [popMin] at h
  | cons x xs ih =>
    cases hx : popMin xs with
    | none =>
      simp only [popMin, hx] at h
      cases h
      have hxs : xs = [] := (popMin_none_iff xs).mp hx
      subst hxs
      intro it hit
      simp at hit
      subst hit
      exact Nat.le_refl _
    | some mr =>
      obtain ⟨m1, rest1⟩ := mr
      simp only [popMin, hx] at h
      by_cases hle : x.weight ≤ m1.weight
      · rw [if_pos hle] at h
        cases h
        intro it hit
        rcases List.mem_cons.mp hit with h1 | h1
        · subst h1; exact Nat.le_refl _
        · exact Nat.le_trans hle (ih m1 rest1 hx it h1)
      · rw [if_neg hle] at h
        cases h
        intro it hit
        rcases List.mem_cons.mp hit with h1 | h1
        · subst h1; exact Nat.le_of_lt (Nat.lt_of_not_le hle)
        · exact ih m rest1 hx it h1

theorem popMin_mem (l : List HeapItem) (m : HeapItem) (rest : List HeapItem)
    (h : popMin l = some (m, rest)) : m ∈ l :=
  (popMin_perm l m rest h).mem_iff.mpr (List.mem_cons_self m rest)

theorem popMin_mem_of_rest (l : List HeapItem) (m : HeapItem) (rest : List HeapItem)
    (h : popMin l = some (m, rest)) : ∀ it ∈ rest, it ∈ l := fun it hit =>
  (popMin_perm l m rest h).mem_iff.mpr (List.mem_cons_of_mem m hit)

theorem popMin_mem_split (l : List HeapItem) (m : HeapItem) (rest : List HeapItem)
    (h : popMin l = some (m, rest)) : ∀ it ∈ l, it = m ∨ it ∈ rest := fun it hit =>
  List.mem_cons.mp ((popMin_perm l m rest h).mem_iff.mp hit)

/-! Parent chains: the path structure maintained by the search state. -/

theorem Chain.head_cons {g : PreparationGraph} {d : Dijkstra} {ok : Nat → Prop}
    {s n : Nat} {c : List Nat} (h : Chain g d ok s n c) : ∃ c0, c = n :: c0 := by
  cases h with
  | base => exact ⟨[], rfl⟩
  | step n p e c hns hpar he hadj hrec hok hch => exact ⟨c, rfl⟩

theorem Chain.mem_self {g : PreparationGraph} {d : Dijkstra} {ok : Nat → Prop}
    {s n : Nat} {c : List Nat} (h : Chain g d ok s n c) : n ∈ c := by
  obtain ⟨c0, rfl⟩ := h.head_cons
  exact List.mem_cons_self n c0

theorem Chain.last_eq {g : PreparationGraph} {d : Dijkstra} {ok : Nat → Prop}
    {s n : Nat} {c : List Nat} (h : Chain g d ok s n c) : c.getLast? = some s := by
  induction h with
  | base => rfl
  | step n p e c hns hpar he hadj hrec hok hch ih =>
    obtain ⟨c0, rfl⟩ := hch.head_cons
    simpa using ih

theorem Chain.mem_ok {g : PreparationGraph} {d : Dijkstra} {ok : Nat → Prop}
    {s n : Nat} {c : List Nat} (h : Chain g d ok s n c) :
    ∀ x ∈ c, x = n ∨ ok x := by
  induction h with
  | base =>
    intro x hx
    simp at hx
    exact Or.inl hx
  | step n p e c hns hpar he hadj hrec hok hch ih =>
    intro x hx
    rcases List.mem_cons.mp hx with h1 | h1
    · exact Or.inl h1
    · rcases ih x h1 with h2 | h2
      · exact Or.inr (h2 ▸ hok)
      · exact Or.inr h2

theorem Chain.recorded_le_head {g : PreparationGraph} {d : Dijkstra} {ok : Nat → Prop}
    {s n : Nat} {c : List Nat} (h : Chain g d ok s n c) :
    ∀ x ∈ c, recorded d x ≤ recorded d n := by
  induction h with
  | base =>
    intro x hx
    simp at hx
    subst hx
    exact Nat.le_refl _
  | step n p e c hns hpar he hadj hrec hok hch ih =>
    intro x hx
    rcases List.mem_cons.mp hx with h1 | h1
    · subst h1
      exact Nat.le_refl _
    · exact Nat.le_trans (ih x h1) (by omega)

theorem Chain.mono {g : PreparationGraph} {d d' : Dijkstra} {ok ok' : Nat → Prop}
    {s n : Nat} {c : List Nat}
    (h : Chain g d ok s n c)
    (hdat : ∀ x ∈ c, recorded d' x = recorded d x ∧ (dataAt d' x).parent = (dataAt d x).parent)
    (hok : ∀ p, ok p → ok' p) : Chain g d' ok' s n c := by
  induction h with
  | base => exact Chain.base
  | step n p e c hns hpar he hadj hrec hok2 hch ih =>
    have hmemp : p ∈ c := hch.mem_self
    have hn := hdat n (List.mem_cons_self _ _)
    have hp := hdat p (List.mem_cons_of_mem _ hmemp)
    refine Chain.step n p e c hns ?_ he hadj ?_ (hok p hok2)
      (ih fun x hx => hdat x (List.mem_cons_of_mem _ hx))
    · rw [hn.2, hpar]
    · rw [hn.1, hp.1, hrec]

theorem Chain.tail_sum {g : PreparationGraph} {d : Dijkstra} {ok : Nat → Prop}
    {s n : Nat} {c : List Nat} (h : Chain g d ok s n c) :
    recorded d n ≤ recorded d s + (c.tail.map (outWSum g)).sum := by
  induction h with
  | base => simp
  | step n p e c hns hpar he hadj hrec hok hch ih =>
    obtain ⟨c1, rfl⟩ := hch.head_cons
    have hew : e.weight ≤ outWSum g p :=
      List.le_sum_of_mem (List.mem_map_of_mem PrepEdge.weight he)
    simp only [List.tail_cons, List.map_cons, List.sum_cons] at ih ⊢
    omega

theorem sum_outWSum_le (g : PreparationGraph) (l : List Nat) (hnd : l.Nodup)
    (hlt : ∀ x ∈ l, x < g.get_num_nodes) : (l.map (outWSum g)).sum ≤ weightSum g := by
  have h1 : l.toFinset.sum (outWSum g) = (l.map (outWSum g)).sum :=
    List.sum_toFinset _ hnd
  rw [← h1, weightSum]
  apply Finset.sum_le_sum_of_subset
  intro x hx
  rw [List.mem_toFinset] at hx
  exact Finset.mem_range.mpr (hlt x hx)

theorem Chain.recorded_bound {g : PreparationGraph} {d : Dijkstra} {ok : Nat → Prop}
    {s n : Nat} {c : List Nat} (h : Chain g d ok s n c) (h0 : recorded d s = 0)
    (hnd : c.Nodup) (hlt : ∀ x ∈ c, x < g.get_num_nodes) :
    recorded d n ≤ weightSum g := by
  obtain ⟨c0, rfl⟩ := h.head_cons
  have ht := h.tail_sum
  have hsum : (((n :: c0)).map (outWSum g)).sum ≤ weightSum g := sum_outWSum_le g _ hnd hlt
  simp only [List.tail_cons] at ht
  simp only [List.map_cons, List.sum_cons] at hsum
  omega

theorem Chain.extend_bound {g : PreparationGraph} {d : Dijkstra} {ok : Nat → Prop}
    {s n : Nat} {c : List Nat} (h : Chain g d ok s n c) (h0 : recorded d s = 0)
    (hnd : c.Nodup) (hlt : ∀ x ∈ c, x < g.get_num_nodes) (e : PrepEdge)
    (he : e ∈ outAt g n) : recorded d n + e.weight ≤ weightSum g := by
  obtain ⟨c0, rfl⟩ := h.head_cons
  have ht := h.tail_sum
  have hew : e.weight ≤ outWSum g n :=
    List.le_sum_of_mem (List.mem_map_of_mem PrepEdge.weight he)
  have hsum : (((n :: c0)).map (outWSum g)).sum ≤ weightSum g := sum_outWSum_le g _ hnd hlt
  simp only [List.tail_cons] at ht
  simp only [List.map_cons, List.sum_cons] at hsum
  omega

/-! Further state-operation lemmas. -/

@[simp] theorem pushItem_num_nodes (d : Dijkstra) (it : HeapItem) :
    (pushItem d it).num_nodes = d.num_nodes := rfl

@[simp] theorem pushItem_heap (d : Dijkstra) (it : HeapItem) :
    (pushItem d it).heap = d.heap ++ [it] := rfl

@[simp] theorem pushItem_data (d : Dijkstra) (it : HeapItem) :
    (pushItem d it).data = d.data := rfl

@[simp] theorem pushItem_valid (d : Dijkstra) (it : HeapItem) :
    (pushItem d it).valid = d.valid := rfl

@[simp] theorem dataAt_pushItem (d : Dijkstra) (it : HeapItem) (n : Nat) :
    dataAt (pushItem d it) n = dataAt d n := rfl

@[simp] theorem validAt_pushItem (d : Dijkstra) (it : HeapItem) (n : Nat) :
    validAt (pushItem d it) n = validAt d n := rfl

@[simp] theorem recorded_pushItem (d : Dijkstra) (it : HeapItem) (n : Nat) :
    recorded (pushItem d it) n = recorded d n := rfl

@[simp] theorem is_settled_pushItem (d : Dijkstra) (it : HeapItem) (n : Nat) :
    Dijkstra.is_settled (pushItem d it) n = Dijkstra.is_settled d n := rfl

theorem is_settled_iff (d : Dijkstra) (n : Nat) :
    Dijkstra.is_settled d n = true ↔ validAt d n = true ∧ (dataAt d n).settled = true := by
  rw [Dijkstra.is_settled, Bool.and_eq_true]

theorem is_settled_valid (d : Dijkstra) (n : Nat) (h : Dijkstra.is_settled d n = true) :
    validAt d n = true := ((is_settled_iff d n).mp h).1

theorem get_weight_of_valid (d : Dijkstra) (n : Nat) (h : validAt d n = true) :
    Dijkstra.get_weight d n = recorded d n := by
  rw [Dijkstra.get_weight, if_pos h, recorded]

theorem weight_max_lt_u64 : WEIGHT_MAX < U64 := by norm_num [WEIGHT_MAX, U64]

theorem wf_adj_lt (g : PreparationGraph) (hwf : g.wf = true) (n : Nat) (e : PrepEdge)
    (he : e ∈ outAt g n) : e.adj_node < g.get_num_nodes := by
  rw [PreparationGraph.wf, List.all_eq_true] at hwf
  rcases Nat.lt_or_ge n g.out_edges.length with hn | hn
  · have hmem : g.out_edges.getD n [] ∈ g.out_edges := by
      rw [List.getD_eq_getElem?_getD, List.getElem?_eq_getElem hn]
      exact List.getElem_mem hn
    have h2 := hwf _ hmem
    rw [List.all_eq_true] at h2
    have h3 := h2 e he
    simpa [PreparationGraph.get_num_nodes] using h3
  · exfalso
    rw [outAt, getD_default_of_le _ _ _ hn] at he
    exact (List.not_mem_nil e) he

theorem getD_replicate_false (k n : Nat) : (List.replicate k false).getD n false = false := by
  rcases Nat.lt_or_ge n k with h | h
  · exact getD_replicate_lt k n false false h
  · exact getD_default_of_le _ _ _ (by simpa using h)

/-! The reachable-state invariant of the search. -/

theorem inv_init (g : PreparationGraph) (s : Nat) (d : Dijkstra)
    (hdata : d.data.length = d.num_nodes) (hnodes : g.get_num_nodes = d.num_nodes)
    (hNmax : d.num_nodes ≤ INVALID_NODE)
    (hsum : weightSum g < WEIGHT_MAX) (hwf : g.wf = true) (hs : s < d.num_nodes) :
    DijInv g s (Dijkstra.init d s) := by
  have hdlen : ((List.replicate d.num_nodes false).set s true).length = d.num_nodes := by simp
  have hvA : ∀ n, validAt (Dijkstra.init d s) n = (if s = n then true else false) := by
    intro n
    by_cases hn : s = n
    · subst hn
      simp only [if_pos rfl]
      exact getD_set_self _ _ _ _ (by simp; omega)
    · rw [if_neg hn]
      show ((List.replicate d.num_nodes false).set s true).getD n false = false
      rw [getD_set_ne _ _ _ _ _ hn]
      exact getD_replicate_false _ _
  have hdA : dataAt (Dijkstra.init d s) s = { settled := false, weight := 0, parent := INVALID_NODE } := by
    show (d.data.set s _).getD s _ = _
    exact getD_set_self _ _ _ _ (by omega)
  have hheapA : (Dijkstra.init d s).heap = [{ weight := 0, node_id := s }] := rfl
  have hsettledA : ∀ n, Dijkstra.is_settled (Dijkstra.init d s) n = false := by
    intro n
    rw [Dijkstra.is_settled]
    by_cases hn : s = n
    · subst hn
      rw [hdA]
      simp
    · rw [hvA n, if_neg hn]
      simp
  have hvalidS : validAt (Dijkstra.init d s) s = true := by rw [hvA s, if_pos rfl]
  refine
    { hdata := by simpa [Dijkstra.init, Dijkstra.update_node, pushItem] using hdata
      hvalid := by simp [Dijkstra.init, Dijkstra.update_node, pushItem]
      hnodes := hnodes
      hNmax := hNmax
      hsum := hsum
      hwf := hwf
      hstart_valid := hvalidS
      hstart_rec := by rw [recorded, hdA]
      hstart_par := by rw [hdA]
      hchain := ?_
      hheap1 := ?_
      hheap2 := ?_
      hheap3 := ?_ }
  · intro n hn
    have hns : s = n := by
      by_contra hne
      rw [hvA n, if_neg hne] at hn
      exact Bool.false_ne_true hn
    subst hns
    exact ⟨[s], Chain.base, List.nodup_singleton s, by
      intro x hx
      simp at hx
      subst hx
      exact hvalidS⟩
  · intro it hit
    rw [hheapA] at hit
    simp at hit
    subst hit
    refine ⟨hvalidS, ?_⟩
    rw [recorded, hdA]
  · intro n hsettled
    rw [hsettledA n] at hsettled
    exact absurd hsettled (by simp)
  · intro n hvn _
    have hns : s = n := by
      by_contra hne
      rw [hvA n, if_neg hne] at hvn
      exact Bool.false_ne_true hvn
    subst hns
    refine ⟨{ weight := 0, node_id := s }, by rw [hheapA]; simp, rfl, ?_⟩
    rw [recorded, hdA]

theorem validAt_lt_len (d : Dijkstra) (m : Nat) (h : validAt d m = true) :
    m < d.valid.length := by
  rcases Nat.lt_or_ge m d.valid.length with h1 | h1
  · exact h1
  · exfalso
    rw [validAt, getD_default_of_le _ _ _ h1] at h
    exact Bool.false_ne_true h

theorem validAt_update_node_mono (d : Dijkstra) (node : Nat) (w p m : Nat)
    (hm : validAt d m = true) : validAt (Dijkstra.update_node d node w p) m = true := by
  by_cases he : node = m
  · subst he
    exact validAt_update_node_self d node w p (validAt_lt_len d node hm)
  · rw [validAt_update_node_ne d node w p m he]
    exact hm

theorem relax_step (g : PreparationGraph) (s : Nat) (curr : HeapItem) (dbase d : Dijkstra)
    (e : PrepEdge) (he : e ∈ outAt g curr.node_id)
    (hnodes : g.get_num_nodes = dbase.num_nodes) (hsum : weightSum g < WEIGHT_MAX)
    (hwf : g.wf = true)
    (hsettled_le : ∀ n, Dijkstra.is_settled dbase n = true → recorded dbase n ≤ curr.weight)
    (hcurr_valid : validAt dbase curr.node_id = true)
    (hcurr_rec : recorded dbase curr.node_id = curr.weight)
    (r : RInv g s curr dbase d) : RInv g s curr dbase (relaxBody curr d e) := by
  simp only [relaxBody]
  by_cases hupd : wAdd curr.weight e.weight < Dijkstra.get_weight d e.adj_node
  swap
  · rw [if_neg hupd]
    exact r
  rw [if_pos hupd]
  have hvcurr_d : validAt d curr.node_id = true := r.hvalid_mono _ hcurr_valid
  have hreccurr_d : recorded d curr.node_id = curr.weight := by
    rw [recorded, r.hcurr_data]
    exact hcurr_rec
  obtain ⟨cc, hcc, hccnd, hccv⟩ := r.hchain curr.node_id hvcurr_d
  have hgn : g.get_num_nodes = d.num_nodes := by rw [hnodes, ← r.hnum]
  have hcclt : ∀ x ∈ cc, x < g.get_num_nodes := by
    intro x hx
    have h1 := validAt_lt d x r.hvalid (hccv x hx)
    omega
  have hbound : curr.weight + e.weight ≤ weightSum g := by
    have h1 := Chain.extend_bound hcc r.hstart_rec hccnd hcclt e he
    rw [hreccurr_d] at h1
    exact h1
  have hw' : wAdd curr.weight e.weight = curr.weight + e.weight := by
    rw [wAdd]
    have h2 := weight_max_lt_u64
    exact Nat.mod_eq_of_lt (by omega)
  have hne_curr : e.adj_node ≠ curr.node_id := by
    intro heq
    rw [heq, get_weight_of_valid d _ hvcurr_d, hreccurr_d] at hupd
    omega
  have hunsettled_d : Dijkstra.is_settled d e.adj_node = false := by
    cases hS : Dijkstra.is_settled d e.adj_node
    · rfl
    · exfalso
      have hSb : Dijkstra.is_settled dbase e.adj_node = true := by
        rw [← r.hsettled_eq]
        exact hS
      have hv : validAt d e.adj_node = true := is_settled_valid d _ hS
      rw [get_weight_of_valid d _ hv] at hupd
      have hle2 : recorded dbase e.adj_node ≤ curr.weight := hsettled_le _ hSb
      have heq2 : recorded d e.adj_node = recorded dbase e.adj_node := by
        rw [recorded, r.hfrozen _ hSb]
        rfl
      omega
  have hne_s : e.adj_node ≠ s := by
    intro heq
    rw [heq, get_weight_of_valid d _ r.hstart_valid, r.hstart_rec] at hupd
    omega
  have hadj_lt_g : e.adj_node < g.get_num_nodes := wf_adj_lt g hwf _ e he
  have hdatalen : e.adj_node < d.data.length := by
    have := r.hdata
    omega
  have hvalidlen : e.adj_node < d.valid.length := by
    have := r.hvalid
    omega
  have hnotin : ∀ n c, Chain g d (fun p => Dijkstra.is_settled d p = true ∨ p = curr.node_id) s n c →
      n ≠ e.adj_node → e.adj_node ∉ c := by
    intro n c hc hne hmem
    rcases hc.mem_ok _ hmem with h1 | h1
    · exact hne h1.symm
    · rcases h1 with h2 | h2
      · rw [hunsettled_d] at h2
        exact Bool.false_ne_true h2
      · exact hne_curr h2
  have hDself : dataAt (Dijkstra.update_node d e.adj_node (wAdd curr.weight e.weight) curr.node_id) e.adj_node =
      { settled := false, weight := wAdd curr.weight e.weight, parent := curr.node_id } :=
    dataAt_update_node_self d _ _ _ hdatalen
  have hDne : ∀ m, m ≠ e.adj_node →
      dataAt (Dijkstra.update_node d e.adj_node (wAdd curr.weight e.weight) curr.node_id) m = dataAt d m :=
    fun m hm => dataAt_update_node_ne d _ _ _ m (Ne.symm hm)
  have hVself : validAt (Dijkstra.update_node d e.adj_node (wAdd curr.weight e.weight) curr.node_id) e.adj_node = true :=
    validAt_update_node_self d _ _ _ hvalidlen
  have hVne : ∀ m, m ≠ e.adj_node →
      validAt (Dijkstra.update_node d e.adj_node (wAdd curr.weight e.weight) curr.node_id) m = validAt d m :=
    fun m hm => validAt_update_node_ne d _ _ _ m (Ne.symm hm)
  have hSet_self : Dijkstra.is_settled (Dijkstra.update_node d e.adj_node (wAdd curr.weight e.weight) curr.node_id) e.adj_node = false := by
    rw [Dijkstra.is_settled, hDself]
    simp
  have hSet_ne : ∀ m, m ≠ e.adj_node →
      Dijkstra.is_settled (Dijkstra.update_node d e.adj_node (wAdd curr.weight e.weight) curr.node_id) m = Dijkstra.is_settled d m := by
    intro m hm
    rw [Dijkstra.is_settled, Dijkstra.is_settled, hDne m hm, hVne m hm]
  have hVmono : ∀ m, validAt d m = true →
      validAt (Dijkstra.update_node d e.adj_node (wAdd curr.weight e.weight) curr.node_id) m = true :=
    fun m hm => validAt_update_node_mono d _ _ _ m hm
  refine
    { hdata := by simpa [Dijkstra.update_node] using r.hdata
      hvalid := by simpa [Dijkstra.update_node] using r.hvalid
      hnum := r.hnum
      hsettled_eq := ?_
      hfrozen := ?_
      hvalid_mono := ?_
      hcurr_data := ?_
      hstart_valid := ?_
      hstart_rec := ?_
      hstart_par := ?_
      hchain := ?_
      hheap1 := ?_
      hheap2lo := ?_
      hheap3 := ?_ }
  · intro n
    simp only [is_settled_pushItem]
    by_cases hn : n = e.adj_node
    · subst hn
      rw [hSet_self, ← r.hsettled_eq, hunsettled_d]
    · rw [hSet_ne n hn, r.hsettled_eq]
  · intro n hn
    have hnd : Dijkstra.is_settled d n = true := by rw [r.hsettled_eq]; exact hn
    have hne : n ≠ e.adj_node := by
      intro heq
      rw [heq, hunsettled_d] at hnd
      exact Bool.false_ne_true hnd
    simp only [dataAt_pushItem]
    rw [hDne n hne]
    exact r.hfrozen n hn
  · intro n hn
    simp only [validAt_pushItem]
    exact hVmono n (r.hvalid_mono n hn)
  · simp only [dataAt_pushItem]
    rw [hDne _ (Ne.symm hne_curr)]
    exact r.hcurr_data
  · simp only [validAt_pushItem]
    exact hVmono s r.hstart_valid
  · simp only [recorded_pushItem]
    rw [recorded, hDne s (Ne.symm hne_s)]
    exact r.hstart_rec
  · simp only [dataAt_pushItem]
    rw [hDne s (Ne.symm hne_s)]
    exact r.hstart_par
  · intro n hn
    simp only [validAt_pushItem] at hn
    by_cases hne : n = e.adj_node
    · subst hne
      refine ⟨e.adj_node :: cc, ?_, ?_, ?_⟩
      · refine Chain.step e.adj_node curr.node_id e cc hne_s ?_ he rfl ?_ (Or.inr rfl) ?_
        · simp only [dataAt_pushItem]
          rw [hDself]
        · simp only [recorded_pushItem]
          rw [recorded, hDself]
          show wAdd curr.weight e.weight = recorded _ curr.node_id + e.weight
          rw [recorded, hDne _ (Ne.symm hne_curr), ← recorded, hreccurr_d, hw']
        · refine hcc.mono ?_ ?_
          · intro x hx
            have hxne : x ≠ e.adj_node := by
              intro heq
              exact hnotin curr.node_id cc hcc (Ne.symm hne_curr) (heq ▸ hx)
            simp only [recorded_pushItem, dataAt_pushItem]
            exact ⟨by simp only [recorded, hDne x hxne], by simp only [hDne x hxne]⟩
          · intro p hp
            simp only [is_settled_pushItem]
            rcases hp with hp1 | hp1
            · left
              have hpne : p ≠ e.adj_node := by
                intro heq
                rw [heq, hunsettled_d] at hp1
                exact Bool.false_ne_true hp1
              rw [hSet_ne p hpne]
              exact hp1
            · exact Or.inr hp1
      · rw [List.nodup_cons]
        exact ⟨hnotin curr.node_id cc hcc (Ne.symm hne_curr), hccnd⟩
      · intro x hx
        simp only [validAt_pushItem]
        rcases List.mem_cons.mp hx with h1 | h1
        · subst h1
          exact hVself
        · exact hVmono x (hccv x h1)
    · have hvd : validAt d n = true := by rw [← hVne n hne]; exact hn
      obtain ⟨c, hc, hcnd, hcv⟩ := r.hchain n hvd
      have hnot : e.adj_node ∉ c := hnotin n c hc hne
      refine ⟨c, ?_, hcnd, ?_⟩
      · refine hc.mono ?_ ?_
        · intro x hx
          have hxne : x ≠ e.adj_node := fun heq => hnot (heq ▸ hx)
          simp only [recorded_pushItem, dataAt_pushItem]
          exact ⟨by simp only [recorded, hDne x hxne], by simp only [hDne x hxne]⟩
        · intro p hp
          simp only [is_settled_pushItem]
          rcases hp with hp1 | hp1
          · left
            have hpne : p ≠ e.adj_node := by
              intro heq
              rw [heq, hunsettled_d] at hp1
              exact Bool.false_ne_true hp1
            rw [hSet_ne p hpne]
            exact hp1
          · exact Or.inr hp1
      · intro x hx
        simp only [validAt_pushItem]
        exact hVmono x (hcv x hx)
  · intro it hit
    simp only [pushItem_heap] at hit
    simp only [validAt_pushItem, recorded_pushItem]
    rcases List.mem_append.mp hit with h1 | h1
    · obtain ⟨hv1, hr1⟩ := r.hheap1 it h1
      refine ⟨hVmono _ hv1, ?_⟩
      by_cases hne : it.node_id = e.adj_node
      · rw [hne, recorded, hDself]
        show wAdd curr.weight e.weight ≤ it.weight
        rw [get_weight_of_valid d _ (hne ▸ hv1)] at hupd
        rw [hne] at hr1
        omega
      · rw [recorded, hDne _ hne]
        exact hr1
    · simp at h1
      subst h1
      refine ⟨hVself, ?_⟩
      rw [recorded, hDself]
  · intro it hit
    simp only [pushItem_heap] at hit
    rcases List.mem_append.mp hit with h1 | h1
    · exact r.hheap2lo it h1
    · simp at h1
      subst h1
      show curr.weight ≤ wAdd curr.weight e.weight
      omega
  · intro n hvn hsn hnc
    simp only [validAt_pushItem] at hvn
    simp only [is_settled_pushItem] at hsn
    simp only [pushItem_heap, recorded_pushItem]
    by_cases hne : n = e.adj_node
    · subst hne
      refine ⟨{ weight := wAdd curr.weight e.weight, node_id := e.adj_node }, by simp, rfl, ?_⟩
      rw [recorded, hDself]
    · have hvd : validAt d n = true := by rw [← hVne n hne]; exact hvn
      have hsd : Dijkstra.is_settled d n = false := by rw [← hSet_ne n hne]; exact hsn
      obtain ⟨it, hitmem, hitnode, hitw⟩ := r.hheap3 n hvd hsd hnc
      refine ⟨it, List.mem_append_left _ hitmem, hitnode, ?_⟩
      rw [hitw, recorded, recorded, hDne n hne]

theorem relax_fold (g : PreparationGraph) (s : Nat) (curr : HeapItem) (dbase : Dijkstra)
    (l : List PrepEdge) (hl : ∀ e ∈ l, e ∈ outAt g curr.node_id)
    (hnodes : g.get_num_nodes = dbase.num_nodes) (hsum : weightSum g < WEIGHT_MAX)
    (hwf : g.wf = true)
    (hsettled_le : ∀ n, Dijkstra.is_settled dbase n = true → recorded dbase n ≤ curr.weight)
    (hcurr_valid : validAt dbase curr.node_id = true)
    (hcurr_rec : recorded dbase curr.node_id = curr.weight) :
    ∀ d : Dijkstra, RInv g s curr dbase d → RInv g s curr dbase (l.foldl (relaxBody curr) d) := by
  induction l with
  | nil => exact fun d r => r
  | cons e t ih =>
    intro d r
    rw [List.foldl_cons]
    exact ih (fun e2 he2 => hl e2 (List.mem_cons_of_mem e he2)) (relaxBody curr d e)
      (relax_step g s curr dbase d e (hl e (List.mem_cons_self e t)) hnodes hsum hwf
        hsettled_le hcurr_valid hcurr_rec r)

theorem recorded_set_settled (d : Dijkstra) (node m : Nat) :
    recorded (Dijkstra.set_settled d node) m = recorded d m := by
  rcases Nat.lt_or_ge node d.data.length with hlt | hge
  · by_cases hnm : node = m
    · subst hnm
      rw [recorded, recorded, dataAt_set_settled_self d node hlt]
    · rw [recorded, recorded, dataAt_set_settled_ne d node m hnm]
  · have : d.data.set node { dataAt d node with settled := true } = d.data :=
      List.set_eq_of_length_le hge
    rw [recorded, recorded, dataAt, dataAt, Dijkstra.set_settled]
    simp only [this]

theorem parent_set_settled (d : Dijkstra) (node m : Nat) :
    (dataAt (Dijkstra.set_settled d node) m).parent = (dataAt d m).parent := by
  rcases Nat.lt_or_ge node d.data.length with hlt | hge
  · by_cases hnm : node = m
    · subst hnm
      rw [dataAt_set_settled_self d node hlt]
    · rw [dataAt_set_settled_ne d node m hnm]
  · have : d.data.set node { dataAt d node with settled := true } = d.data :=
      List.set_eq_of_length_le hge
    rw [dataAt, dataAt, Dijkstra.set_settled]
    simp only [this]

theorem is_settled_set_settled_self (d : Dijkstra) (node : Nat)
    (hv : validAt d node = true) (hlt : node < d.data.length) :
    Dijkstra.is_settled (Dijkstra.set_settled d node) node = true := by
  rw [Dijkstra.is_settled, dataAt_set_settled_self d node hlt]
  simp [validAt_set_settled, hv]

theorem is_settled_set_settled_ne (d : Dijkstra) (node m : Nat) (h : node ≠ m) :
    Dijkstra.is_settled (Dijkstra.set_settled d node) m = Dijkstra.is_settled d m := by
  rw [Dijkstra.is_settled, Dijkstra.is_settled, dataAt_set_settled_ne d node m h,
    validAt_set_settled]

theorem is_settled_set_settled_mono (d : Dijkstra) (node m : Nat)
    (h : Dijkstra.is_settled d m = true) :
    Dijkstra.is_settled (Dijkstra.set_settled d node) m = true := by
  by_cases hnm : node = m
  · subst hnm
    exact is_settled_set_settled_self d node (is_settled_valid d node h)
      (by
        have h1 := validAt_lt_len d node (is_settled_valid d node h)
        rcases Nat.lt_or_ge node d.data.length with h2 | h2
        · exact h2
        · exfalso
          rw [Dijkstra.is_settled, dataAt, getD_default_of_le _ _ _ h2] at h
          simp at h)
  · rw [is_settled_set_settled_ne d node m hnm]
    exact h

theorem stale_inv (g : PreparationGraph) (s : Nat) (d : Dijkstra) (curr : HeapItem)
    (rest : List HeapItem) (inv : DijInv g s d) (hpop : popMin d.heap = some (curr, rest))
    (hset : Dijkstra.is_settled d curr.node_id = true) :
    DijInv g s { d with heap := rest } := by
  refine
    { hdata := inv.hdata
      hvalid := inv.hvalid
      hnodes := inv.hnodes
      hNmax := inv.hNmax
      hsum := inv.hsum
      hwf := inv.hwf
      hstart_valid := inv.hstart_valid
      hstart_rec := inv.hstart_rec
      hstart_par := inv.hstart_par
      hchain := ?_
      hheap1 := fun it hit => inv.hheap1 it (popMin_mem_of_rest _ _ _ hpop it hit)
      hheap2 := fun n hn it hit => inv.hheap2 n hn it (popMin_mem_of_rest _ _ _ hpop it hit)
      hheap3 := ?_ }
  · intro n hvn
    obtain ⟨c, hc, hnd, hv⟩ := inv.hchain n hvn
    exact ⟨c, hc.mono (fun x _ => ⟨rfl, rfl⟩) (fun p hp => hp), hnd, hv⟩
  · intro n hvn hsn
    obtain ⟨it, hitmem, hitnode, hitw⟩ := inv.hheap3 n hvn hsn
    rcases popMin_mem_split _ _ _ hpop it hitmem with h1 | h1
    · exfalso
      subst h1
      have hsn2 : Dijkstra.is_settled d n = false := hsn
      rw [hitnode] at hset
      rw [hset] at hsn2
      exact Bool.noConfusion hsn2
    · exact ⟨it, h1, hitnode, hitw⟩

theorem nonstale_step_inv (g : PreparationGraph) (s : Nat) (d : Dijkstra)
    (curr : HeapItem) (rest : List HeapItem) (inv : DijInv g s d)
    (hpop : popMin d.heap = some (curr, rest))
    (hset : Dijkstra.is_settled d curr.node_id = false) :
    DijInv g s (Dijkstra.set_settled (Dijkstra.relax_edges g curr { d with heap := rest })
      curr.node_id) ∧
    ∀ n, Dijkstra.is_settled d n = true →
      Dijkstra.is_settled (Dijkstra.set_settled (Dijkstra.relax_edges g curr
        { d with heap := rest }) curr.node_id) n = true ∧
      dataAt (Dijkstra.set_settled (Dijkstra.relax_edges g curr { d with heap := rest })
        curr.node_id) n = dataAt d n := by
  have hmem : curr ∈ d.heap := popMin_mem _ _ _ hpop
  have hcv : validAt d curr.node_id = true := (inv.hheap1 curr hmem).1
  have hrle : recorded d curr.node_id ≤ curr.weight := (inv.hheap1 curr hmem).2
  obtain ⟨it0, hit0mem, hit0node, hit0w⟩ := inv.hheap3 curr.node_id hcv hset
  have hw0 : curr.weight ≤ it0.weight := popMin_min _ _ _ hpop it0 hit0mem
  have hcr : recorded d curr.node_id = curr.weight := by omega
  have r0 : RInv g s curr { d with heap := rest } { d with heap := rest } := by
    refine
      { hdata := inv.hdata
        hvalid := inv.hvalid
        hnum := rfl
        hsettled_eq := fun n => rfl
        hfrozen := fun n _ => rfl
        hvalid_mono := fun n h => h
        hcurr_data := rfl
        hstart_valid := inv.hstart_valid
        hstart_rec := inv.hstart_rec
        hstart_par := inv.hstart_par
        hchain := ?_
        hheap1 := fun it hit => inv.hheap1 it (popMin_mem_of_rest _ _ _ hpop it hit)
        hheap2lo := fun it hit => popMin_min _ _ _ hpop it (popMin_mem_of_rest _ _ _ hpop it hit)
        hheap3 := ?_ }
    · intro n hvn
      obtain ⟨c, hc, hnd, hv⟩ := inv.hchain n hvn
      exact ⟨c, hc.mono (fun x _ => ⟨rfl, rfl⟩) (fun p hp => Or.inl hp), hnd, hv⟩
    · intro n hvn hsn hnc
      obtain ⟨it, hitmem, hitnode, hitw⟩ := inv.hheap3 n hvn hsn
      rcases popMin_mem_split _ _ _ hpop it hitmem with h1 | h1
      · exfalso
        subst h1
        rw [hitnode] at hnc
        exact hnc rfl
      · exact ⟨it, h1, hitnode, hitw⟩
  have hsl1 : ∀ n, Dijkstra.is_settled { d with heap := rest } n = true →
      recorded { d with heap := rest } n ≤ curr.weight :=
    fun n hn => inv.hheap2 n hn curr hmem
  have r2 : RInv g s curr { d with heap := rest }
      (Dijkstra.relax_edges g curr { d with heap := rest }) :=
    relax_fold g s curr { d with heap := rest } (outAt g curr.node_id) (fun _ he => he)
      inv.hnodes inv.hsum inv.hwf hsl1 hcv hcr { d with heap := rest } r0
  have hvc2 : validAt (Dijkstra.relax_edges g curr { d with heap := rest }) curr.node_id = true :=
    r2.hvalid_mono _ hcv
  have hrc2 : recorded (Dijkstra.relax_edges g curr { d with heap := rest }) curr.node_id =
      curr.weight := by
    rw [recorded, r2.hcurr_data]
    exact hcr
  have hlt2 : curr.node_id < (Dijkstra.relax_edges g curr { d with heap := rest }).data.length := by
    have h1 := validAt_lt _ _ r2.hvalid hvc2
    have h2 := r2.hdata
    omega
  have hsettle3 : Dijkstra.is_settled (Dijkstra.set_settled
      (Dijkstra.relax_edges g curr { d with heap := rest }) curr.node_id) curr.node_id = true :=
    is_settled_set_settled_self _ _ hvc2 hlt2
  constructor
  · refine
      { hdata := ?_
        hvalid := ?_
        hnodes := ?_
        hNmax := ?_
        hsum := inv.hsum
        hwf := inv.hwf
        hstart_valid := ?_
        hstart_rec := ?_
        hstart_par := ?_
        hchain := ?_
        hheap1 := ?_
        hheap2 := ?_
        hheap3 := ?_ }
    · rw [data_length_set_settled, num_nodes_set_settled]
      exact r2.hdata
    · rw [num_nodes_set_settled]
      have := r2.hvalid
      simpa [Dijkstra.set_settled] using this
    · rw [num_nodes_set_settled, r2.hnum]
      exact inv.hnodes
    · rw [num_nodes_set_settled, r2.hnum]
      exact inv.hNmax
    · rw [validAt_set_settled]
      exact r2.hstart_valid
    · rw [recorded_set_settled]
      exact r2.hstart_rec
    · rw [parent_set_settled]
      exact r2.hstart_par
    · intro n hvn
      rw [validAt_set_settled] at hvn
      obtain ⟨c, hc, hnd, hv⟩ := r2.hchain n hvn
      refine ⟨c, ?_, hnd, ?_⟩
      · refine hc.mono (fun x _ => ⟨recorded_set_settled _ _ _, parent_set_settled _ _ _⟩) ?_
        intro p hp
        rcases hp with hp1 | hp1
        · exact is_settled_set_settled_mono _ _ _ hp1
        · subst hp1
          exact hsettle3
      · intro x hx
        rw [validAt_set_settled]
        exact hv x hx
    · intro it hit
      rw [heap_set_settled] at hit
      obtain ⟨h1, h2⟩ := r2.hheap1 it hit
      rw [validAt_set_settled, recorded_set_settled]
      exact ⟨h1, h2⟩
    · intro n hn it hit
      rw [heap_set_settled] at hit
      rw [recorded_set_settled]
      by_cases hnc : n = curr.node_id
      · subst hnc
        rw [hrc2]
        exact r2.hheap2lo it hit
      · rw [is_settled_set_settled_ne _ _ _ (fun h => hnc h.symm)] at hn
        have hn1 : Dijkstra.is_settled { d with heap := rest } n = true := by
          rw [← r2.hsettled_eq]
          exact hn
        have hfz := r2.hfrozen n hn1
        have hrec2 : recorded (Dijkstra.relax_edges g curr { d with heap := rest }) n =
            recorded d n := by
          rw [recorded, hfz]
          rfl
        have hle2 : recorded d n ≤ curr.weight := inv.hheap2 n hn1 curr hmem
        have hlo := r2.hheap2lo it hit
        omega
    · intro n hvn hsn
      rw [validAt_set_settled] at hvn
      have hnc : n ≠ curr.node_id := by
        intro heq
        rw [heq, hsettle3] at hsn
        exact Bool.noConfusion hsn
      rw [is_settled_set_settled_ne _ _ _ (fun h => hnc h.symm)] at hsn
      obtain ⟨it, hitmem, hitnode, hitw⟩ := r2.hheap3 n hvn hsn hnc
      refine ⟨it, ?_, hitnode, ?_⟩
      · rw [heap_set_settled]
        exact hitmem
      · rw [recorded_set_settled]
        exact hitw
  · intro n hn
    have hnc : n ≠ curr.node_id := by
      intro heq
      rw [heq, hset] at hn
      exact Bool.noConfusion hn
    have hn1 : Dijkstra.is_settled { d with heap := rest } n = true := hn
    have hfz := r2.hfrozen n hn1
    have hs2 : Dijkstra.is_settled (Dijkstra.relax_edges g curr { d with heap := rest }) n =
        true := by
      rw [r2.hsettled_eq]
      exact hn1
    constructor
    · rw [is_settled_set_settled_ne _ _ _ (fun h => hnc h.symm)]
      exact hs2
    · rw [dataAt_set_settled_ne _ _ _ (fun h => hnc h.symm), hfz]
      rfl

theorem runLoop_inv (g : PreparationGraph) (s endNode : Nat) (fuel : Nat) :
    ∀ d : Dijkstra, DijInv g s d →
      DijInv g s (Dijkstra.runLoop g endNode fuel d) ∧
      ∀ n, Dijkstra.is_settled d n = true →
        Dijkstra.is_settled (Dijkstra.runLoop g endNode fuel d) n = true ∧
        dataAt (Dijkstra.runLoop g endNode fuel d) n = dataAt d n := by
  induction fuel with
  | zero =>
    intro d inv
    exact ⟨inv, fun n hn => ⟨hn, rfl⟩⟩
  | succ fuel ih =>
    intro d inv
    simp only [Dijkstra.runLoop]
    split
    · exact ⟨inv, fun n hn => ⟨hn, rfl⟩⟩
    · next curr rest hpop =>
      split
      · next hset =>
        obtain ⟨inv1, pay1⟩ := ih { d with heap := rest } (stale_inv g s d curr rest inv hpop hset)
        exact ⟨inv1, fun n hn => pay1 n hn⟩
      · next hset =>
        have hset2 : Dijkstra.is_settled d curr.node_id = false := by
          cases hS : Dijkstra.is_settled d curr.node_id
          · rfl
          · exact absurd hS hset
        split
        · next hend =>
          exact nonstale_step_inv g s d curr rest inv hpop hset2
        · next hend =>
          obtain ⟨inv3, pay3⟩ := nonstale_step_inv g s d curr rest inv hpop hset2
          obtain ⟨invF, payF⟩ := ih _ inv3
          refine ⟨invF, fun n hn => ?_⟩
          obtain ⟨hs3, hd3⟩ := pay3 n hn
          obtain ⟨hsF, hdF⟩ := payF n hs3
          exact ⟨hsF, by rw [hdF, hd3]⟩

theorem do_calc_path_inv (g : PreparationGraph) (s t : Nat) (d : Dijkstra)
    (inv : DijInv g s d) : DijInv g s (Dijkstra.do_calc_path g d s t) := by
  simp only [Dijkstra.do_calc_path]
  split
  · exact inv
  · split
    · exact inv
    · exact (runLoop_inv g s t (dijkstraFuel g d) d inv).1

/-! From parent chains to paths. -/

theorem PathW.head_eq {E : Nat → Nat → Nat → Prop} {a b : Nat} {nodes : List Nat} {w : Nat}
    (h : PathW E a b nodes w) : nodes.head? = some a := by
  cases h <;> rfl

theorem PathW.lastNode {E : Nat → Nat → Nat → Prop} {a b : Nat} {nodes : List Nat} {w : Nat}
    (h : PathW E a b nodes w) : nodes.getLast? = some b := by
  induction h with
  | single n => rfl
  | cons a b c nodes w wE hE hp ih =>
    have hhd := hp.head_eq
    cases nodes with
    | nil => exact absurd hhd (by simp)
    | cons x tail =>
      rw [List.getLast?_cons_cons]
      exact ih

theorem PathW.relMono {E F : Nat → Nat → Nat → Prop} {a b : Nat} {nodes : List Nat} {w : Nat}
    (h : PathW E a b nodes w) (himp : ∀ x y wt, E x y wt → F x y wt) :
    PathW F a b nodes w := by
  induction h with
  | single n => exact PathW.single n
  | cons a b c nodes w wE hE hp ih => exact PathW.cons a b c nodes w wE (himp a b wE hE) ih

theorem PathW.snoc {E : Nat → Nat → Nat → Prop} {a b : Nat} {nodes : List Nat} {w : Nat}
    (h : PathW E a b nodes w) {c wE : Nat} (hE : E b c wE) :
    PathW E a c (nodes ++ [c]) (w + wE) := by
  induction h with
  | single n =>
    have h2 := PathW.cons n c c [c] 0 wE hE (PathW.single c)
    simpa using h2
  | cons a b c0 nodes w wE2 hE2 hp ih =>
    have h2 := PathW.cons a b c (nodes ++ [c]) (w + wE) wE2 hE2 (ih hE)
    simpa [Nat.add_assoc] using h2

theorem Chain.toPathW {g : PreparationGraph} {d : Dijkstra} {ok : Nat → Prop}
    {s n : Nat} {c : List Nat} (h : Chain g d ok s n c) (h0 : recorded d s = 0) :
    PathW (prepEdgeRel g) s n c.reverse (recorded d n) := by
  induction h with
  | base =>
    rw [h0]
    simpa using PathW.single s
  | step n p e c hns hpar he hadj hrec hok hch ih =>
    have hE : prepEdgeRel g p n e.weight := ⟨e, he, hadj, rfl⟩
    have h2 := ih.snoc hE
    rw [List.reverse_cons, hrec]
    exact h2

theorem parentWalk_eq_chain (g : PreparationGraph) (d : Dijkstra) (ok : Nat → Prop)
    (s : Nat) (hspar : (dataAt d s).parent = INVALID_NODE)
    (hlen : d.valid.length = d.num_nodes) (hNI : d.num_nodes ≤ INVALID_NODE)
    {n : Nat} {c : List Nat} (h : Chain g d ok s n c) :
    (∀ x ∈ c, validAt d x = true) →
      ∀ fuel, c.length ≤ fuel → parentWalk d fuel n = c.dropLast := by
  induction h with
  | base =>
    intro hv fuel hf
    cases fuel with
    | zero => simp at hf
    | succ f =>
      simp only [parentWalk]
      rw [if_pos hspar]
      rfl
  | step n p e c hns hpar he hadj hrec hok hch ih =>
    intro hv fuel hf
    cases fuel with
    | zero => simp at hf
    | succ f =>
      simp only [parentWalk]
      have hpv : validAt d p = true := hv p (List.mem_cons_of_mem _ hch.mem_self)
      have hplt : p < d.num_nodes := validAt_lt d p hlen hpv
      have hpne : (dataAt d n).parent ≠ INVALID_NODE := by
        rw [hpar]
        omega
      rw [if_neg hpne, hpar]
      have hlen2 : c.length ≤ f := by
        simp at hf
        omega
      rw [ih (fun x hx => hv x (List.mem_cons_of_mem _ hx)) f hlen2]
      obtain ⟨c0, rfl⟩ := hch.head_cons
      rfl

theorem nodup_lt_length_le (c : List Nat) (N : Nat) (hnd : c.Nodup)
    (hlt : ∀ x ∈ c, x < N) : c.length ≤ N := by
  have h1 : c.toFinset.card = c.length := List.toFinset_card_of_nodup hnd
  have h2 : c.toFinset ⊆ Finset.range N := by
    intro x hx
    rw [List.mem_toFinset] at hx
    exact Finset.mem_range.mpr (hlt x hx)
  have h3 := Finset.card_le_card h2
  rw [Finset.card_range] at h3
  omega

theorem build_path_some (g : PreparationGraph) (s t : Nat) (d : Dijkstra)
    (inv : DijInv g s d) (p : ShortestPath)
    (h : Dijkstra.build_path d s t = some p) :
    p.source = s ∧ p.target = t ∧ PathW (prepEdgeRel g) s t p.nodes p.weight := by
  rw [Dijkstra.build_path] at h
  by_cases hst : s = t
  · rw [if_pos hst] at h
    cases h
    subst hst
    exact ⟨rfl, rfl, PathW.single s⟩
  · rw [if_neg hst] at h
    cases hsettled : Dijkstra.is_settled d t with
    | false =>
      rw [hsettled] at h
      simp at h
    | true =>
      rw [hsettled] at h
      simp only [Bool.not_true, Bool.false_eq_true, if_false] at h
      cases h
      have hvt : validAt d t = true := is_settled_valid d t hsettled
      obtain ⟨c, hc, hnd, hv⟩ := inv.hchain t hvt
      have hlt : ∀ x ∈ c, x < d.num_nodes := fun x hx => validAt_lt d x inv.hvalid (hv x hx)
      have hclen : c.length ≤ d.num_nodes := nodup_lt_length_le c d.num_nodes hnd hlt
      have hwalk : parentWalk d (d.num_nodes + 1) t = c.dropLast :=
        parentWalk_eq_chain g d _ s inv.hstart_par inv.hvalid inv.hNmax hc hv
          (d.num_nodes + 1) (by omega)
      have hcne : c ≠ [] := by
        obtain ⟨c0, rfl⟩ := hc.head_cons
        simp
      have hlast : c.getLast hcne = s := by
        have h1 := hc.last_eq
        rw [List.getLast?_eq_getLast c hcne] at h1
        exact Option.some_injective _ h1
      have hfull : c.dropLast ++ [s] = c := by
        rw [← hlast]
        exact List.dropLast_append_getLast hcne
      refine ⟨rfl, rfl, ?_⟩
      show PathW (prepEdgeRel g) s t ((parentWalk d (d.num_nodes + 1) t ++ [s]).reverse)
        (dataAt d t).weight
      rw [hwalk, hfull]
      exact hc.toPathW inv.hstart_rec

/-! Correspondence between the preparation graph built from an input graph and the
input graph's own edges. -/

theorem addEdgeToList_mem (l : List PrepEdge) (dst w : Nat) (e' : PrepEdge)
    (h : e' ∈ addEdgeToList l dst w) :
    e' ∈ l ∨ (e'.adj_node = dst ∧ e'.weight = w) ∨
      (∃ e0 ∈ l, e0.adj_node = dst ∧ e'.adj_node = dst ∧ e'.weight = e0.weight) := by
  rw [addEdgeToList] at h
  by_cases hany : l.any fun e => e.adj_node == dst
  · rw [if_pos hany] at h
    obtain ⟨e0, he0, heq⟩ := List.mem_map.mp h
    by_cases hadj : e0.adj_node == dst
    · rw [if_pos hadj] at heq
      have hadj2 : e0.adj_node = dst := by simpa using hadj
      rcases Nat.le_total e0.weight w with hle | hle
      · have hmin : min e0.weight w = e0.weight := Nat.min_eq_left hle
        right; right
        refine ⟨e0, he0, hadj2, ?_, ?_⟩
        · rw [← heq, hadj2]
        · rw [← heq, hmin]
      · have hmin : min e0.weight w = w := Nat.min_eq_right hle
        right; left
        constructor
        · rw [← heq, hadj2]
        · rw [← heq, hmin]
    · rw [if_neg hadj] at heq
      left
      rw [← heq]
      exact he0
  · rw [if_neg hany] at h
    rcases List.mem_append.mp h with h1 | h1
    · exact Or.inl h1
    · right; left
      simp at h1
      rw [h1]
      exact ⟨rfl, rfl⟩

theorem prepEdgeRel_add_edge (g : PreparationGraph) (src dst w : Nat) (a b wt : Nat)
    (h : prepEdgeRel (PreparationGraph.add_edge g src dst w) a b wt) :
    prepEdgeRel g a b wt ∨ (a = src ∧ b = dst ∧ wt = w) := by
  rw [PreparationGraph.add_edge] at h
  by_cases hsd : src = dst
  · rw [if_pos hsd] at h
    exact Or.inl h
  · rw [if_neg hsd] at h
    obtain ⟨e', he', hadj, hw⟩ := h
    by_cases has : a = src
    · subst has
      rcases Nat.lt_or_ge a g.out_edges.length with hlt | hge
      · have hout : outAt { out_edges := g.out_edges.set a (addEdgeToList (outAt g a) dst w) } a =
            addEdgeToList (outAt g a) dst w := getD_set_self _ _ _ _ hlt
        rw [hout] at he'
        rcases addEdgeToList_mem _ _ _ _ he' with h1 | h1 | h1
        · exact Or.inl ⟨e', h1, hadj, hw⟩
        · right
          refine ⟨rfl, ?_, ?_⟩
          · rw [← hadj, h1.1]
          · rw [← hw, h1.2]
        · obtain ⟨e0, he0, he0adj, hadj2, hwe⟩ := h1
          left
          refine ⟨e0, he0, ?_, ?_⟩
          · rw [he0adj, ← hadj2, hadj]
          · rw [← hwe, hw]
      · have hnoop : g.out_edges.set a (addEdgeToList (outAt g a) dst w) = g.out_edges :=
          List.set_eq_of_length_le hge
        have hout : outAt { out_edges := g.out_edges.set a (addEdgeToList (outAt g a) dst w) } a =
            outAt g a := by
          simp only [outAt] at hnoop ⊢
          rw [hnoop]
        rw [hout] at he'
        exact Or.inl ⟨e', he', hadj, hw⟩
    · have hout : outAt { out_edges := g.out_edges.set src (addEdgeToList (outAt g src) dst w) } a =
          outAt g a := getD_set_ne _ _ _ _ _ fun h2 => has h2.symm
      rw [hout] at he'
      exact Or.inl ⟨e', he', hadj, hw⟩

theorem prepEdgeRel_fold (l : List InputEdge) :
    ∀ (g : PreparationGraph) (a b wt : Nat),
      prepEdgeRel (l.foldl (fun g e => PreparationGraph.add_edge g e.src e.dst e.weight) g) a b wt →
      prepEdgeRel g a b wt ∨ ∃ e ∈ l, e.src = a ∧ e.dst = b ∧ e.weight = wt := by
  induction l with
  | nil => exact fun g a b wt h => Or.inl h
  | cons e t ih =>
    intro g a b wt h
    rw [List.foldl_cons] at h
    rcases ih _ a b wt h with h1 | h1
    · rcases prepEdgeRel_add_edge g e.src e.dst e.weight a b wt h1 with h2 | h2
      · exact Or.inl h2
      · exact Or.inr ⟨e, List.mem_cons_self e t, h2.1.symm, h2.2.1.symm, h2.2.2.symm⟩
    · obtain ⟨e0, he0, h2⟩ := h1
      exact Or.inr ⟨e0, List.mem_cons_of_mem _ he0, h2⟩

theorem prepEdgeRel_from_input (ig : InputGraph) (a b wt : Nat)
    (h : prepEdgeRel (PreparationGraph.from_input_graph ig) a b wt) :
    inputEdgeRel ig a b wt := by
  rw [PreparationGraph.from_input_graph] at h
  rcases prepEdgeRel_fold ig.edges _ a b wt h with h1 | h1
  · exfalso
    obtain ⟨e', he', _, _⟩ := h1
    have hempty : outAt { out_edges := List.replicate ig.num_nodes [] } a = [] := by
      rw [outAt]
      rcases Nat.lt_or_ge a ig.num_nodes with hlt | hge
      · exact getD_replicate_lt _ _ _ _ hlt
      · exact getD_default_of_le _ _ _ (by simpa using hge)
    rw [hempty] at he'
    exact (List.not_mem_nil e') he'
  · exact h1

theorem fold_add_edge_length (l : List InputEdge) :
    ∀ g : PreparationGraph,
      (l.foldl (fun g e => PreparationGraph.add_edge g e.src e.dst e.weight) g).out_edges.length =
        g.out_edges.length := by
  induction l with
  | nil => exact fun g => rfl
  | cons e t ih =>
    intro g
    rw [List.foldl_cons, ih]
    rw [PreparationGraph.add_edge]
    by_cases h : e.src = e.dst
    · rw [if_pos h]
    · rw [if_neg h]
      simp

theorem from_input_num_nodes (ig : InputGraph) :
    (PreparationGraph.from_input_graph ig).get_num_nodes = ig.num_nodes := by
  rw [PreparationGraph.get_num_nodes, PreparationGraph.from_input_graph, fold_add_edge_length]
  simp

theorem from_input_wf (ig : InputGraph) (hwf : ig.wf = true) :
    (PreparationGraph.from_input_graph ig).wf = true := by
  rw [PreparationGraph.wf, List.all_eq_true]
  intro l hl
  rw [List.all_eq_true]
  intro e he
  obtain ⟨i, hi, hieq⟩ := List.mem_iff_getElem.mp hl
  have hmem : e ∈ outAt (PreparationGraph.from_input_graph ig) i := by
    rw [outAt, List.getD_eq_getElem?_getD, List.getElem?_eq_getElem hi, Option.getD_some, hieq]
    exact he
  have hrel : prepEdgeRel (PreparationGraph.from_input_graph ig) i e.adj_node e.weight :=
    ⟨e, hmem, rfl, rfl⟩
  obtain ⟨e0, he0, _, hdst, _⟩ := prepEdgeRel_from_input ig _ _ _ hrel
  rw [InputGraph.wf, List.all_eq_true] at hwf
  have h2 := hwf e0 he0
  simp only [Bool.and_eq_true, decide_eq_true_eq] at h2
  have hlen : (PreparationGraph.from_input_graph ig).out_edges.length = ig.num_nodes := by
    have := from_input_num_nodes ig
    rwa [PreparationGraph.get_num_nodes] at this
  simp only [decide_eq_true_eq]
  rw [hlen, ← hdst]
  exact h2.2

/-! End-to-end characterizations of `calc_path` and its panic-aware wrapper. -/

theorem calc_path_some (ig : InputGraph) (s t : Nat) (p : ShortestPath)
    (hwf : ig.wf = true) (hs : s < ig.num_nodes)
    (hsum : weightSum (PreparationGraph.from_input_graph ig) < WEIGHT_MAX)
    (hNI : ig.num_nodes ≤ INVALID_NODE)
    (h : Dijkstra.calc_path (Dijkstra.new ig.num_nodes) (PreparationGraph.from_input_graph ig)
      s t = some p) :
    p.source = s ∧ p.target = t ∧ PathW (inputEdgeRel ig) s t p.nodes p.weight := by
  have inv0 : DijInv (PreparationGraph.from_input_graph ig) s
      (Dijkstra.init (Dijkstra.new ig.num_nodes) s) :=
    inv_init _ s _ (by simp [Dijkstra.new]) (from_input_num_nodes ig) hNI hsum
      (from_input_wf ig hwf) hs
  have invF := do_calc_path_inv (PreparationGraph.from_input_graph ig) s t _ inv0
  simp only [Dijkstra.calc_path] at h
  obtain ⟨h1, h2, h3⟩ := build_path_some _ s t _ invF p h
  exact ⟨h1, h2, h3.relMono fun a b wt hrel => prepEdgeRel_from_input ig a b wt hrel⟩

theorem calc_path_none_of_no_path (ig : InputGraph) (s t : Nat)
    (hwf : ig.wf = true) (hs : s < ig.num_nodes)
    (hsum : weightSum (PreparationGraph.from_input_graph ig) < WEIGHT_MAX)
    (hNI : ig.num_nodes ≤ INVALID_NODE)
    (hnp : ∀ nodes w, ¬ PathW (inputEdgeRel ig) s t nodes w) :
    Dijkstra.calc_path (Dijkstra.new ig.num_nodes) (PreparationGraph.from_input_graph ig)
      s t = none := by
  cases hres : Dijkstra.calc_path (Dijkstra.new ig.num_nodes)
      (PreparationGraph.from_input_graph ig) s t with
  | none => rfl
  | some p =>
    exfalso
    exact hnp p.nodes p.weight (calc_path_some ig s t p hwf hs hsum hNI hres).2.2

theorem calc_path_checked_ok (d : Dijkstra) (g : PreparationGraph) (s t : Nat)
    (hs : s < d.num_nodes) (ht : t < d.num_nodes) (hG : g.get_num_nodes = d.num_nodes)
    (hwf : g.wf = true) :
    Dijkstra.calc_path_checked d g s t = Except.ok (Dijkstra.calc_path d g s t) := by
  rw [Dijkstra.calc_path_checked]
  rw [if_neg (by omega), if_neg (by omega)]
  by_cases hst : s = t
  · rw [if_pos hst]
  · rw [if_neg hst, if_neg (by omega), if_neg (by rw [hwf]; exact fun h => Bool.noConfusion h)]

theorem calc_path_self (d : Dijkstra) (g : PreparationGraph) (k : Nat) :
    Dijkstra.calc_path d g k k = some (ShortestPath.singular k) := by
  simp [Dijkstra.calc_path, Dijkstra.do_calc_path, Dijkstra.build_path]

/-! Concrete instances used by the witness theorems. -/

theorem FastGraphEdge.to32_eq (e : FastGraphEdge) (h : e.fitsU32 = true) : e.to32 = e := by
  rw [FastGraphEdge.fitsU32] at h
  simp only [Bool.and_eq_true, decide_eq_true_eq] at h
  obtain ⟨⟨⟨⟨h1, h2⟩, h3⟩, h4⟩, h5⟩ := h
  cases e
  rw [FastGraphEdge.to32]
  simp only [FastGraphEdge.mk.injEq]
  simp only at h1 h2 h3 h4 h5
  exact ⟨Nat.mod_eq_of_lt h1, Nat.mod_eq_of_lt h2, Nat.mod_eq_of_lt h3,
    Nat.mod_eq_of_lt h4, Nat.mod_eq_of_lt h5⟩

theorem map_truncU32_id (l : List Nat) (h : ∀ x ∈ l, x < U32) : l.map truncU32 = l := by
  induction l with
  | nil => rfl
  | cons x t ih =>
    rw [List.map_cons, ih fun y hy => h y (List.mem_cons_of_mem x hy)]
    rw [truncU32, Nat.mod_eq_of_lt (h x (List.mem_cons_self x t))]

theorem map_to32_id (l : List FastGraphEdge) (h : ∀ e ∈ l, e.fitsU32 = true) :
    l.map FastGraphEdge.to32 = l := by
  induction l with
  | nil => rfl
  | cons x t ih =>
    rw [List.map_cons, ih fun y hy => h y (List.mem_cons_of_mem x hy)]
    rw [FastGraphEdge.to32_eq x (h x (List.mem_cons_self x t))]

/-! Claim theorems. -/

/-- C3 counterexample: the claim "any finite weight plus WEIGHT_MAX equals WEIGHT_MAX"
is false for the addition the code performs (dijkstra.rs:92): `usize` addition wraps,
so 1 + WEIGHT_MAX evaluates to 0, not to WEIGHT_MAX. -/
theorem c3_saturation_counterexample : wAdd 1 WEIGHT_MAX = 0 ∧ wAdd 1 WEIGHT_MAX ≠ WEIGHT_MAX := by
  constructor
  · decide
  · decide

/-- C3 amended: weight addition in the system is plain 64-bit machine addition, which
wraps modulo 2^64 rather than saturating: any positive representable weight w plus
WEIGHT_MAX wraps around to w - 1, which is never WEIGHT_MAX.  Comparisons do treat
WEIGHT_MAX as greatest: every representable weight is at most WEIGHT_MAX. -/
theorem c3_weight_addition_wraps (w : Nat) (h0 : 0 < w) (hlt : w < U64) :
    wAdd w WEIGHT_MAX = w - 1 ∧ wAdd w WEIGHT_MAX ≠ WEIGHT_MAX ∧ w ≤ WEIGHT_MAX := by
  have hU : U64 = 18446744073709551616 := by norm_num [U64]
  have hW : WEIGHT_MAX = 18446744073709551615 := by norm_num [WEIGHT_MAX, U64]
  refine ⟨?_, ?_, by omega⟩
  · rw [wAdd, hW, hU]
    omega
  · rw [wAdd, hW, hU]
    omega

/-- Witness for C3 at the concrete weight 1. -/
theorem c3_weight_addition_wraps_witness :
    (0 : Nat) < 1 ∧ (1 : Nat) < U64 ∧
    (wAdd 1 WEIGHT_MAX = 1 - 1 ∧ wAdd 1 WEIGHT_MAX ≠ WEIGHT_MAX ∧ (1 : Nat) ≤ WEIGHT_MAX) :=
  ⟨by decide, by decide, c3_weight_addition_wraps 1 (by decide) (by decide)⟩

/-- C8: ShortestPath equality compares only the triple (source, target, weight); two
paths with equal source, target and weight compare equal even when their node
sequences differ, as the concrete second conjunct shows. -/
theorem c8_equality_ignores_nodes :
    (∀ a b : ShortestPath, ShortestPath.beq a b = true ↔
      a.source = b.source ∧ a.target = b.target ∧ a.weight = b.weight) ∧
    ShortestPath.beq { source := 0, target := 1, weight := 5, nodes := [0, 1] }
      { source := 0, target := 1, weight := 5, nodes := [0, 2, 1] } = true := by
  constructor
  · intro a b
    rw [ShortestPath.beq]
    simp [Bool.and_eq_true, and_assoc]
  · decide

/-- C9: a FastGraph whose node count, edge counts and every stored value fit in 32
bits converts to the width-normalized representation and back exactly; a graph
exceeding the 32-bit bounds fails loudly (the conversion refuses, modelled as none)
instead of silently truncating. -/
theorem c9_fast_graph32_roundtrip (g : FastGraph) :
    (g.fitsU32 = true → ∃ g32, FastGraph32.new g = some g32 ∧
      FastGraph32.convert_to_usize g32 = g) ∧
    (g.fitsU32 = false → FastGraph32.new g = none) := by
  constructor
  · intro hfit
    refine ⟨_, by rw [FastGraph32.new, if_pos hfit], ?_⟩
    have h2 := hfit
    rw [FastGraph.fitsU32] at h2
    simp only [Bool.and_eq_true, List.all_eq_true, decide_eq_true_eq] at h2
    obtain ⟨⟨⟨⟨⟨⟨⟨h1, hlf⟩, hlb⟩, hrk⟩, hef⟩, heb⟩, hff⟩, hfb⟩ := h2
    rw [FastGraph32.convert_to_usize]
    obtain ⟨nn, rk, ef, ff, eb, fb⟩ := g
    simp only [FastGraph.mk.injEq]
    simp only at h1 hrk hef heb hff hfb
    refine ⟨?_, ?_, ?_, ?_, ?_, ?_⟩
    · rw [truncU32, Nat.mod_eq_of_lt h1]
    · exact map_truncU32_id rk hrk
    · exact map_to32_id ef hef
    · exact map_truncU32_id ff hff
    · exact map_to32_id eb heb
    · exact map_truncU32_id fb hfb
  · intro hfit
    rw [FastGraph32.new, if_neg (by rw [hfit]; exact fun h => Bool.noConfusion h)]

/-- Witness for C9: the round trip at a small concrete graph, and the loud failure at
a graph with an over-wide weight. -/
theorem c9_fast_graph32_roundtrip_witness :
    (exampleFastGraph.fitsU32 = true ∧
      ∃ g32, FastGraph32.new exampleFastGraph = some g32 ∧
        FastGraph32.convert_to_usize g32 = exampleFastGraph) ∧
    (exampleBigFastGraph.fitsU32 = false ∧
      FastGraph32.new exampleBigFastGraph = none) :=
  ⟨⟨by rfl, (c9_fast_graph32_roundtrip exampleFastGraph).1 (by rfl)⟩,
   ⟨by rfl, (c9_fast_graph32_roundtrip exampleBigFastGraph).2 (by rfl)⟩⟩

/-- C10: with the queried start node in range, `Dijkstra::calc_path` fails with
exactly the node-count assertion (dijkstra.rs:71-75) whenever the supplied graph's
node count differs from the `num_nodes` the instance was constructed with; when the
counts agree, that assertion never fires. -/
theorem c10_assert_node_count (d : Dijkstra) (g : PreparationGraph) (s t : Nat)
    (hs : s < d.num_nodes) :
    (g.get_num_nodes ≠ d.num_nodes →
      Dijkstra.calc_path_checked d g s t = Except.error "given graph has invalid node count") ∧
    (g.get_num_nodes = d.num_nodes →
      Dijkstra.calc_path_checked d g s t ≠ Except.error "given graph has invalid node count") := by
  constructor
  · intro hne
    rw [Dijkstra.calc_path_checked, if_neg (by omega), if_pos hne]
  · intro heq
    rw [Dijkstra.calc_path_checked, if_neg (by omega), if_neg fun h => h heq]
    by_cases hst : s = t
    · rw [if_pos hst]
      exact fun h => Except.noConfusion h
    · rw [if_neg hst]
      by_cases hT : d.num_nodes ≤ t
      · rw [if_pos hT]
        intro h
        exact absurd (by injection h) (by decide)
      · rw [if_neg hT]
        by_cases hW : g.wf = false
        · rw [if_pos hW]
          intro h
          exact absurd (by injection h) (by decide)
        · rw [if_neg hW]
          exact fun h => Except.noConfusion h

/-- Witness for C10: a two-node Dijkstra instance against the three-node chain graph
hits the assertion; against the matching two-node graph it never does. -/
theorem c10_assert_node_count_witness :
    (0 : Nat) < (Dijkstra.new 2).num_nodes ∧
    ((exampleChainGraph.get_num_nodes ≠ (Dijkstra.new 2).num_nodes →
      Dijkstra.calc_path_checked (Dijkstra.new 2) exampleChainGraph 0 1 =
        Except.error "given graph has invalid node count") ∧
     (exampleChainGraph.get_num_nodes = (Dijkstra.new 2).num_nodes →
      Dijkstra.calc_path_checked (Dijkstra.new 2) exampleChainGraph 0 1 ≠
        Except.error "given graph has invalid node count")) :=
  ⟨by decide, c10_assert_node_count (Dijkstra.new 2) exampleChainGraph 0 1 (by decide)⟩

/-- C4: for every node k within range of a Dijkstra instance matching the graph, the
query from k to k returns (without error) the singular path of weight 0 whose node
sequence is exactly [k]. -/
theorem c4_self_query (n k : Nat) (g : PreparationGraph) (hk : k < n)
    (hG : g.get_num_nodes = n) :
    Dijkstra.calc_path_checked (Dijkstra.new n) g k k =
      Except.ok (some (ShortestPath.singular k)) ∧
    (ShortestPath.singular k).weight = 0 ∧ (ShortestPath.singular k).nodes = [k] := by
  refine ⟨?_, rfl, rfl⟩
  rw [Dijkstra.calc_path_checked]
  rw [if_neg (show ¬ (Dijkstra.new n).num_nodes ≤ k by
      show ¬ n ≤ k
      omega),
    if_neg (show ¬ g.get_num_nodes ≠ (Dijkstra.new n).num_nodes from fun h => h hG),
    if_pos rfl, calc_path_self]

/-- Witness for C4 at node 0 of the two-node example graph. -/
theorem c4_self_query_witness :
    (0 : Nat) < 2 ∧ exampleGraph.get_num_nodes = 2 ∧
    (Dijkstra.calc_path_checked (Dijkstra.new 2) exampleGraph 0 0 =
        Except.ok (some (ShortestPath.singular 0)) ∧
      (ShortestPath.singular 0).weight = 0 ∧ (ShortestPath.singular 0).nodes = [0]) :=
  ⟨by decide, by decide, c4_self_query 2 0 exampleGraph (by decide) (by decide)⟩

/-- C2: for every query (s, t) on the graph prepared from an input graph that returns
a path, the returned node sequence begins with s and ends with t, every consecutive
pair of nodes is an edge of the original input graph, and the sum of those original
edge weights equals the path's reported weight — the last two captured exactly by
`PathW (inputEdgeRel ig) s t p.nodes p.weight`. -/
theorem c2_path_validity (ig : InputGraph) (s t : Nat) (p : ShortestPath)
    (hwf : ig.wf = true) (hs : s < ig.num_nodes)
    (hsum : weightSum (PreparationGraph.from_input_graph ig) < WEIGHT_MAX)
    (hNI : ig.num_nodes ≤ INVALID_NODE)
    (h : Dijkstra.calc_path (Dijkstra.new ig.num_nodes)
      (PreparationGraph.from_input_graph ig) s t = some p) :
    p.source = s ∧ p.target = t ∧ p.nodes.head? = some s ∧ p.nodes.getLast? = some t ∧
      PathW (inputEdgeRel ig) s t p.nodes p.weight := by
  obtain ⟨h1, h2, h3⟩ := calc_path_some ig s t p hwf hs hsum hNI h
  exact ⟨h1, h2, h3.head_eq, h3.lastNode, h3⟩

/-- Witness for C2 at the two-node example graph. -/
theorem c2_path_validity_witness :
    exampleInput.wf = true ∧ (0 : Nat) < exampleInput.num_nodes ∧
    weightSum (PreparationGraph.from_input_graph exampleInput) < WEIGHT_MAX ∧
    exampleInput.num_nodes ≤ INVALID_NODE ∧
    Dijkstra.calc_path (Dijkstra.new exampleInput.num_nodes)
      (PreparationGraph.from_input_graph exampleInput) 0 1 =
      some { source := 0, target := 1, weight := 5, nodes := [0, 1] } ∧
    (({ source := 0, target := 1, weight := 5, nodes := [0, 1] } : ShortestPath).source = 0 ∧
      ({ source := 0, target := 1, weight := 5, nodes := [0, 1] } : ShortestPath).target = 1 ∧
      ({ source := 0, target := 1, weight := 5, nodes := [0, 1] } : ShortestPath).nodes.head? =
        some 0 ∧
      ({ source := 0, target := 1, weight := 5, nodes := [0, 1] } : ShortestPath).nodes.getLast? =
        some 1 ∧
      PathW (inputEdgeRel exampleInput) 0 1
        ({ source := 0, target := 1, weight := 5, nodes := [0, 1] } : ShortestPath).nodes
        ({ source := 0, target := 1, weight := 5, nodes := [0, 1] } : ShortestPath).weight) :=
  ⟨by decide, by decide, by decide, by decide, by rfl,
    c2_path_validity exampleInput 0 1 { source := 0, target := 1, weight := 5, nodes := [0, 1] }
      (by decide) (by decide) (by decide) (by decide) (by rfl)⟩

/-- If no input edge leaves s and s differs from t, there is no input path from s
to t. -/
theorem no_path_from_sink (ig : InputGraph) (s t : Nat) (hst : s ≠ t)
    (hno : ∀ e ∈ ig.edges, e.src ≠ s) :
    ∀ nodes w, ¬ PathW (inputEdgeRel ig) s t nodes w := by
  intro nodes w h
  cases h with
  | single n => exact hst rfl
  | cons a b c nodes2 w2 wE hE hp =>
    obtain ⟨e, he, hsrc, _, _⟩ := hE
    exact hno e he hsrc

/-- C5: for every well-formed query (source and target within range) for which no
path exists in the input graph, the checked query operation returns none (absence of
path) wrapped in ok — it never fails for well-formed inputs. -/
theorem c5_no_path_none (ig : InputGraph) (s t : Nat)
    (hwf : ig.wf = true) (hs : s < ig.num_nodes) (ht : t < ig.num_nodes)
    (hsum : weightSum (PreparationGraph.from_input_graph ig) < WEIGHT_MAX)
    (hNI : ig.num_nodes ≤ INVALID_NODE)
    (hnp : ∀ nodes w, ¬ PathW (inputEdgeRel ig) s t nodes w) :
    Dijkstra.calc_path_checked (Dijkstra.new ig.num_nodes)
      (PreparationGraph.from_input_graph ig) s t = Except.ok none := by
  rw [calc_path_checked_ok _ _ _ _ hs ht (from_input_num_nodes ig) (from_input_wf ig hwf)]
  rw [calc_path_none_of_no_path ig s t hwf hs hsum hNI hnp]

/-- Witness for C5: the spec's scenario 3, the chain 0 -> 1 -> 2 queried from 2 to
0. -/
theorem c5_no_path_none_witness :
    exampleChain.wf = true ∧ (2 : Nat) < exampleChain.num_nodes ∧
    (0 : Nat) < exampleChain.num_nodes ∧
    weightSum (PreparationGraph.from_input_graph exampleChain) < WEIGHT_MAX ∧
    exampleChain.num_nodes ≤ INVALID_NODE ∧
    Dijkstra.calc_path_checked (Dijkstra.new exampleChain.num_nodes)
      (PreparationGraph.from_input_graph exampleChain) 2 0 = Except.ok none :=
  ⟨by decide, by decide, by decide, by decide, by decide,
    c5_no_path_none exampleChain 2 0 (by decide) (by decide) (by decide) (by decide) (by decide)
      (no_path_from_sink exampleChain 2 0 (by decide) (by decide))⟩

/-- C6: in the Dijkstra search loop, a popped heap item whose node is already settled
is skipped — the iteration removes only that item and changes nothing else — and
consequently a settled node's scratch record (weight, parent, settled flag) is never
modified again within the same search, for any number of further iterations. -/
theorem c6_settled_skip (g : PreparationGraph) (s endNode : Nat) (d : Dijkstra)
    (inv : DijInv g s d) :
    (∀ curr rest, popMin d.heap = some (curr, rest) →
      Dijkstra.is_settled d curr.node_id = true →
      Dijkstra.runLoop g endNode 1 d = { d with heap := rest }) ∧
    (∀ fuel n, Dijkstra.is_settled d n = true →
      Dijkstra.is_settled (Dijkstra.runLoop g endNode fuel d) n = true ∧
      dataAt (Dijkstra.runLoop g endNode fuel d) n = dataAt d n) := by
  constructor
  · intro curr rest hpop hset
    simp only [Dijkstra.runLoop]
    split
    · next heq =>
      rw [hpop] at heq
      exact Option.noConfusion heq
    · next curr2 rest2 heq =>
      rw [hpop] at heq
      cases heq
      rw [if_pos (show Dijkstra.is_settled { d with heap := rest } curr.node_id = true from hset)]
  · intro fuel n hn
    exact (runLoop_inv g s endNode fuel d inv).2 n hn

/-- Witness for C6 at the freshly initialized search on the two-node example
graph. -/
theorem c6_settled_skip_witness :
    DijInv exampleGraph 0 (Dijkstra.init (Dijkstra.new 2) 0) ∧
    ((∀ curr rest, popMin (Dijkstra.init (Dijkstra.new 2) 0).heap = some (curr, rest) →
        Dijkstra.is_settled (Dijkstra.init (Dijkstra.new 2) 0) curr.node_id = true →
        Dijkstra.runLoop exampleGraph 1 1 (Dijkstra.init (Dijkstra.new 2) 0) =
          { Dijkstra.init (Dijkstra.new 2) 0 with heap := rest }) ∧
     (∀ fuel n, Dijkstra.is_settled (Dijkstra.init (Dijkstra.new 2) 0) n = true →
        Dijkstra.is_settled (Dijkstra.runLoop exampleGraph 1 fuel
          (Dijkstra.init (Dijkstra.new 2) 0)) n = true ∧
        dataAt (Dijkstra.runLoop exampleGraph 1 fuel (Dijkstra.init (Dijkstra.new 2) 0)) n =
          dataAt (Dijkstra.init (Dijkstra.new 2) 0) n)) :=
  have hinv : DijInv exampleGraph 0 (Dijkstra.init (Dijkstra.new 2) 0) :=
    inv_init exampleGraph 0 (Dijkstra.new 2) (by decide) (by decide) (by decide) (by decide)
      (by decide) (by decide)
  ⟨hinv, c6_settled_skip exampleGraph 0 1 (Dijkstra.init (Dijkstra.new 2) 0) hinv⟩

/-! Fuel sufficiency: the fuelled loop computes the fixpoint of the source's
unbounded while loop. -/

theorem countP_update (l : List Nat) (p q : Nat → Bool) (x : Nat) (hx : x ∈ l)
    (hnd : l.Nodup) (hother : ∀ y ∈ l, y ≠ x → q y = p y) (hpx : p x = false)
    (hqx : q x = true) : l.countP q = l.countP p + 1 := by
  induction l with
  | nil => simp at hx
  | cons a t ih =>
    rw [List.nodup_cons] at hnd
    rcases List.mem_cons.mp hx with h1 | h1
    · subst h1
      rw [List.countP_cons_of_pos _ _ hqx, List.countP_cons_of_neg _ _ (by simp [hpx])]
      have ht : t.countP q = t.countP p := List.countP_congr fun y hy => by
        rw [hother y (List.mem_cons_of_mem _ hy) fun he => hnd.1 (he ▸ hy)]
      omega
    · have hax : a ≠ x := fun he => hnd.1 (he ▸ h1)
      have hqa : q a = p a := hother a (List.mem_cons_self a t) hax
      have hrec := ih h1 hnd.2 fun y hy hyx => hother y (List.mem_cons_of_mem _ hy) hyx
      cases hpa : p a
      · rw [List.countP_cons_of_neg _ _ (by simp [hqa, hpa]),
          List.countP_cons_of_neg _ _ (by simp [hpa])]
        omega
      · rw [List.countP_cons_of_pos _ _ (by rw [hqa]; exact hpa),
          List.countP_cons_of_pos _ _ hpa]
        omega

theorem heap_len_relaxBody (curr : HeapItem) (d : Dijkstra) (e : PrepEdge) :
    (relaxBody curr d e).heap.length ≤ d.heap.length + 1 := by
  simp only [relaxBody]
  split
  · simp [pushItem_heap, heap_update_node]
  · omega

theorem heap_len_relax_fold (curr : HeapItem) (l : List PrepEdge) :
    ∀ d : Dijkstra, (l.foldl (relaxBody curr) d).heap.length ≤ d.heap.length + l.length := by
  induction l with
  | nil =>
    intro d
    simp
  | cons e t ih =>
    intro d
    rw [List.foldl_cons]
    have h1 := ih (relaxBody curr d e)
    have h2 := heap_len_relaxBody curr d e
    simp only [List.length_cons]
    omega

theorem outAt_length_le (g : PreparationGraph) (n : Nat) :
    (outAt g n).length ≤ edgeCount g := by
  rcases Nat.lt_or_ge n g.out_edges.length with h | h
  · rw [outAt, List.getD_eq_getElem?_getD, List.getElem?_eq_getElem h, Option.getD_some]
    exact List.le_sum_of_mem (List.mem_map_of_mem List.length (List.getElem_mem h))
  · rw [outAt, getD_default_of_le _ _ _ h]
    simp

theorem nonstale_step_extra (g : PreparationGraph) (s : Nat) (d : Dijkstra)
    (curr : HeapItem) (rest : List HeapItem) (inv : DijInv g s d)
    (hpop : popMin d.heap = some (curr, rest))
    (hset : Dijkstra.is_settled d curr.node_id = false) :
    (∀ n, n ≠ curr.node_id →
      Dijkstra.is_settled (Dijkstra.set_settled (Dijkstra.relax_edges g curr
        { d with heap := rest }) curr.node_id) n = Dijkstra.is_settled d n) ∧
    Dijkstra.is_settled (Dijkstra.set_settled (Dijkstra.relax_edges g curr
      { d with heap := rest }) curr.node_id) curr.node_id = true ∧
    (Dijkstra.set_settled (Dijkstra.relax_edges g curr { d with heap := rest })
      curr.node_id).heap.length ≤ rest.length + (outAt g curr.node_id).length ∧
    (Dijkstra.set_settled (Dijkstra.relax_edges g curr { d with heap := rest })
      curr.node_id).num_nodes = d.num_nodes ∧
    curr.node_id < d.num_nodes := by
  have hmem : curr ∈ d.heap := popMin_mem _ _ _ hpop
  have hcv : validAt d curr.node_id = true := (inv.hheap1 curr hmem).1
  have hrle : recorded d curr.node_id ≤ curr.weight := (inv.hheap1 curr hmem).2
  obtain ⟨it0, hit0mem, hit0node, hit0w⟩ := inv.hheap3 curr.node_id hcv hset
  have hw0 : curr.weight ≤ it0.weight := popMin_min _ _ _ hpop it0 hit0mem
  have hcr : recorded d curr.node_id = curr.weight := by omega
  have r0 : RInv g s curr { d with heap := rest } { d with heap := rest } := by
    refine
      { hdata := inv.hdata
        hvalid := inv.hvalid
        hnum := rfl
        hsettled_eq := fun n => rfl
        hfrozen := fun n _ => rfl
        hvalid_mono := fun n h => h
        hcurr_data := rfl
        hstart_valid := inv.hstart_valid
        hstart_rec := inv.hstart_rec
        hstart_par := inv.hstart_par
        hchain := ?_
        hheap1 := fun it hit => inv.hheap1 it (popMin_mem_of_rest _ _ _ hpop it hit)
        hheap2lo := fun it hit => popMin_min _ _ _ hpop it (popMin_mem_of_rest _ _ _ hpop it hit)
        hheap3 := ?_ }
    · intro n hvn
      obtain ⟨c, hc, hnd, hv⟩ := inv.hchain n hvn
      exact ⟨c, hc.mono (fun x _ => ⟨rfl, rfl⟩) (fun p hp => Or.inl hp), hnd, hv⟩
    · intro n hvn hsn hnc
      obtain ⟨it, hitmem, hitnode, hitw⟩ := inv.hheap3 n hvn hsn
      rcases popMin_mem_split _ _ _ hpop it hitmem with h1 | h1
      · exfalso
        subst h1
        rw [hitnode] at hnc
        exact hnc rfl
      · exact ⟨it, h1, hitnode, hitw⟩
  have hsl1 : ∀ n, Dijkstra.is_settled { d with heap := rest } n = true →
      recorded { d with heap := rest } n ≤ curr.weight :=
    fun n hn => inv.hheap2 n hn curr hmem
  have r2 : RInv g s curr { d with heap := rest }
      (Dijkstra.relax_edges g curr { d with heap := rest }) :=
    relax_fold g s curr { d with heap := rest } (outAt g curr.node_id) (fun _ he => he)
      inv.hnodes inv.hsum inv.hwf hsl1 hcv hcr { d with heap := rest } r0
  have hvc2 : validAt (Dijkstra.relax_edges g curr { d with heap := rest }) curr.node_id = true :=
    r2.hvalid_mono _ hcv
  have hlt2 : curr.node_id < (Dijkstra.relax_edges g curr { d with heap := rest }).data.length := by
    have h1 := validAt_lt _ _ r2.hvalid hvc2
    have h2 := r2.hdata
    omega
  refine ⟨?_, is_settled_set_settled_self _ _ hvc2 hlt2, ?_, ?_, ?_⟩
  · intro n hnc
    rw [is_settled_set_settled_ne _ _ _ fun h => hnc h.symm]
    rw [r2.hsettled_eq]
    rfl
  · rw [heap_set_settled]
    have := heap_len_relax_fold curr (outAt g curr.node_id) { d with heap := rest }
    exact this
  · rw [num_nodes_set_settled]
    exact r2.hnum
  · exact validAt_lt d curr.node_id inv.hvalid hcv

theorem settledCount_succ (g : PreparationGraph) (s : Nat) (d : Dijkstra)
    (curr : HeapItem) (rest : List HeapItem) (inv : DijInv g s d)
    (hpop : popMin d.heap = some (curr, rest))
    (hset : Dijkstra.is_settled d curr.node_id = false) :
    settledCount (Dijkstra.set_settled (Dijkstra.relax_edges g curr { d with heap := rest })
      curr.node_id) = settledCount d + 1 := by
  obtain ⟨hne, hself, _, hnum, hlt⟩ := nonstale_step_extra g s d curr rest inv hpop hset
  rw [settledCount, settledCount, hnum]
  exact countP_update (List.range d.num_nodes) _ _ curr.node_id
    (List.mem_range.mpr hlt) (List.nodup_range d.num_nodes)
    (fun y _ hyx => hne y hyx) hset hself

theorem settledCount_le (d : Dijkstra) : settledCount d ≤ d.num_nodes := by
  rw [settledCount]
  have h := List.countP_le_length (l := List.range d.num_nodes)
    (p := fun n => Dijkstra.is_settled d n)
  rwa [List.length_range] at h

theorem runLoop_absorb (g : PreparationGraph) (s endNode : Nat) :
    ∀ f d, DijInv g s d → loopMeasure g d ≤ f →
      Dijkstra.runLoop g endNode (f + 1) d = Dijkstra.runLoop g endNode f d := by
  intro f
  induction f with
  | zero =>
    intro d inv hμ
    have hheap : d.heap = [] := by
      apply List.eq_nil_of_length_eq_zero
      rw [loopMeasure] at hμ
      omega
    show Dijkstra.runLoop g endNode 1 d = d
    simp only [Dijkstra.runLoop]
    split
    · rfl
    · next curr2 rest2 heq =>
      rw [(popMin_none_iff d.heap).mpr hheap] at heq
      exact Option.noConfusion heq
  | succ f ih =>
    intro d inv hμ
    simp only [Dijkstra.runLoop]
    split
    · rfl
    · next curr rest hpop =>
      have hrest : d.heap.length = rest.length + 1 := by
        have := (popMin_perm _ _ _ hpop).length_eq
        simpa using this
      split
      · next hsetL =>
        have hset : Dijkstra.is_settled d curr.node_id = true := hsetL
        have hinv1 := stale_inv g s d curr rest inv hpop hset
        have hμ1 : loopMeasure g { d with heap := rest } ≤ f := by
          have h1 : loopMeasure g { d with heap := rest } + 1 = loopMeasure g d := by
            rw [loopMeasure, loopMeasure]
            have hsc : settledCount { d with heap := rest } = settledCount d := rfl
            have hnn : ({ d with heap := rest } : Dijkstra).num_nodes = d.num_nodes := rfl
            have hh : ({ d with heap := rest } : Dijkstra).heap = rest := rfl
            rw [hsc, hnn, hh]
            omega
          omega
        exact ih { d with heap := rest } hinv1 hμ1
      · next hsetL =>
        have hset : Dijkstra.is_settled d curr.node_id = false := by
          cases hS : Dijkstra.is_settled d curr.node_id
          · rfl
          · exact absurd hS hsetL
        split
        · rfl
        · obtain ⟨inv3, _⟩ := nonstale_step_inv g s d curr rest inv hpop hset
          obtain ⟨_, _, hlen3, hnum3, hltc⟩ := nonstale_step_extra g s d curr rest inv hpop hset
          have hsc3 := settledCount_succ g s d curr rest inv hpop hset
          have hscle : settledCount d + 1 ≤ d.num_nodes := by
            have h1 := settledCount_le (Dijkstra.set_settled (Dijkstra.relax_edges g curr
              { d with heap := rest }) curr.node_id)
            rw [hsc3, hnum3] at h1
            exact h1
          have hμ3 : loopMeasure g (Dijkstra.set_settled (Dijkstra.relax_edges g curr
              { d with heap := rest }) curr.node_id) ≤ f := by
            have hout := outAt_length_le g curr.node_id
            have hsub : (Dijkstra.set_settled (Dijkstra.relax_edges g curr
                { d with heap := rest }) curr.node_id).num_nodes -
                settledCount (Dijkstra.set_settled (Dijkstra.relax_edges g curr
                  { d with heap := rest }) curr.node_id) =
                d.num_nodes - settledCount d - 1 := by
              rw [hnum3, hsc3]
              omega
            have hd3 : loopMeasure g (Dijkstra.set_settled (Dijkstra.relax_edges g curr
                { d with heap := rest }) curr.node_id) =
                (Dijkstra.set_settled (Dijkstra.relax_edges g curr
                  { d with heap := rest }) curr.node_id).heap.length +
                (d.num_nodes - settledCount d - 1) * (edgeCount g + 1) := by
              rw [loopMeasure, hsub]
            have hprod : (d.num_nodes - settledCount d) * (edgeCount g + 1) =
                (d.num_nodes - settledCount d - 1) * (edgeCount g + 1) + (edgeCount g + 1) := by
              obtain ⟨m, hm⟩ : ∃ m, d.num_nodes - settledCount d = m + 1 :=
                ⟨d.num_nodes - settledCount d - 1, by omega⟩
              rw [hm, Nat.add_sub_cancel, Nat.add_mul, Nat.one_mul]
            have hdd : loopMeasure g d = d.heap.length +
                ((d.num_nodes - settledCount d - 1) * (edgeCount g + 1) + (edgeCount g + 1)) := by
              rw [loopMeasure, hprod]
            rw [hd3]
            rw [hdd] at hμ
            omega
          exact ih _ inv3 hμ3

theorem runLoop_fuel_independent (g : PreparationGraph) (s endNode : Nat) (d : Dijkstra)
    (inv : DijInv g s d) (f : Nat) (hf : loopMeasure g d ≤ f) :
    Dijkstra.runLoop g endNode f d = Dijkstra.runLoop g endNode (loopMeasure g d) d := by
  obtain ⟨k, rfl⟩ := Nat.exists_eq_add_of_le hf
  induction k with
  | zero => rfl
  | succ k ih =>
    have h1 : loopMeasure g d + (k + 1) = (loopMeasure g d + k) + 1 := by omega
    rw [h1, runLoop_absorb g s endNode (loopMeasure g d + k) d inv (Nat.le_add_right _ _)]
    exact ih (Nat.le_add_right _ _)

theorem calc_path_fuel_faithful (g : PreparationGraph) (s endNode : Nat) (d : Dijkstra)
    (inv : DijInv g s (Dijkstra.init d s)) (f : Nat)
    (hf : dijkstraFuel g (Dijkstra.init d s) ≤ f) :
    Dijkstra.runLoop g endNode f (Dijkstra.init d s) =
      Dijkstra.runLoop g endNode (dijkstraFuel g (Dijkstra.init d s)) (Dijkstra.init d s) := by
  have hs : s < (Dijkstra.init d s).num_nodes := validAt_lt _ _ inv.hvalid inv.hstart_valid
  have hdl : (Dijkstra.init d s).data.length = d.data.length := by
    simp [Dijkstra.init, Dijkstra.update_node, pushItem]
  have hdlen : s < d.data.length := by
    have h1 := inv.hdata
    rw [hdl] at h1
    omega
  have hzero : settledCount (Dijkstra.init d s) = 0 := by
    rw [settledCount]
    apply List.countP_eq_zero.mpr
    intro n _
    intro hcon
    rw [is_settled_iff] at hcon
    obtain ⟨hv, hst⟩ := hcon
    by_cases hns : s = n
    · subst hns
      have hda : dataAt (Dijkstra.init d s) s =
          { settled := false, weight := 0, parent := INVALID_NODE } := by
        show (d.data.set s _).getD s _ = _
        exact getD_set_self _ _ _ _ hdlen
      rw [hda] at hst
      exact Bool.noConfusion hst
    · have hvs : validAt (Dijkstra.init d s) n = false := by
        show ((List.replicate d.num_nodes false).set s true).getD n false = false
        rw [getD_set_ne _ _ _ _ _ hns]
        exact getD_replicate_false _ _
      rw [hvs] at hv
      exact Bool.noConfusion hv
  have hheap1 : (Dijkstra.init d s).heap.length = 1 := rfl
  have hμ : loopMeasure g (Dijkstra.init d s) ≤ dijkstraFuel g (Dijkstra.init d s) := by
    rw [loopMeasure, dijkstraFuel, hzero, hheap1, Nat.sub_zero]
    have hring : ((Dijkstra.init d s).num_nodes + 1) * (edgeCount g + 2) =
        (Dijkstra.init d s).num_nodes * (edgeCount g + 1) +
          ((Dijkstra.init d s).num_nodes + edgeCount g + 2) := by ring
    omega
  rw [runLoop_fuel_independent g s endNode _ inv f (le_trans hμ hf),
    runLoop_fuel_independent g s endNode _ inv (dijkstraFuel g (Dijkstra.init d s)) hμ]
